import Mathlib

/-!
Verification of the flate2 streaming compression library core.

The development shallowly embeds the library's gzip framing layer
(header builder, suspendable and blocking header parsers, trailer
validation, single- and multi-member decoding), the CRC-32 checksum
engine with its combine operation and its carryless-multiply SIMD
variant, and the 64-bit total counters of the memory codec.

Bytes are modelled as natural numbers (values below 256 where it
matters), byte streams as lists, machine integers as naturals reduced
modulo the appropriate power of two, and fallible operations through
the Except and Option monads.

The DEFLATE engine itself (the Huffman/LZ77 kernel), the portable
CRC-32 fallback and the zlib framing are external collaborators of the
repository; where a claim depends on them they are modelled from the
specification, as marked in the corresponding doc comments.
-/

set_option maxRecDepth 100000

namespace Flate2

/-! ## Byte and little-endian utilities -/

/-- A list of naturals is a byte string when every entry is below 256. -/
def IsBytes (l : List Nat) : Prop := ∀ b ∈ l, b < 256

instance : DecidablePred IsBytes := fun l => List.decidableBAll _ l

/-- Little-endian byte encoding of a natural into a fixed number of bytes,
least significant byte first (the layout used by every multi-byte field
of the gzip format). -/
def le : Nat → Nat → List Nat
  | 0, _ => []
  | k + 1, n => n % 256 :: le k (n >>> 8)

/-- Little-endian value of a byte list, least significant byte first.
This is the reading order of gzip multi-byte fields and also the layout
of an unaligned 128-bit SIMD load. -/
def loadLE : List Nat → Nat
  | [] => 0
  | b :: l => b + 256 * loadLE l

/-! ## CRC-32 bit engine

The IEEE CRC-32 in its reflected form, written as the bit-level linear
feedback shift register that the table-driven fallback tabulates. -/

/-- The CRC-32 polynomial, bit-reversed representation of 0x04C11DB7. -/
def crcPoly : Nat := 0xEDB88320

/-- One bit step of the reflected CRC-32 shift register: shift right,
and if the dropped bit was set, fold in the polynomial. -/
def crcBitStep (c : Nat) : Nat :=
  if c % 2 = 1 then (c >>> 1) ^^^ crcPoly else c >>> 1

/-- Iterated bit steps: the state after feeding k zero bits. -/
def crcShift : Nat → Nat → Nat
  | 0, c => c
  | k + 1, c => crcShift k (crcBitStep c)

/-- One byte step: xor the byte into the state, then run 8 bit steps. -/
def crcByteStep (c b : Nat) : Nat := crcShift 8 (c ^^^ b)

/-- The raw (uncomplemented) CRC register after feeding a byte list. -/
def crcRaw (c : Nat) (l : List Nat) : Nat := l.foldl crcByteStep c

/-- IEEE CRC-32 of a byte list seeded with an initial value, with the
standard initial and final complement. Modelled from the spec: the
portable fallback consumed by the library is specified as the pure
function computing the IEEE CRC-32 of data seeded with an initial value. -/
def crc32 (c : Nat) (l : List Nat) : Nat :=
  crcRaw (c ^^^ 0xFFFFFFFF) l ^^^ 0xFFFFFFFF

/-! ## Gzip header data model

Embedded from src/gz/mod.rs and src/gz/bufread.rs. -/

/-- Header flag bit for the optional 16-bit header CRC. -/
def FHCRC : Nat := 1 <<< 1

/-- Header flag bit for the optional extra field. -/
def FEXTRA : Nat := 1 <<< 2

/-- Header flag bit for the optional zero-terminated filename. -/
def FNAME : Nat := 1 <<< 3

/-- Header flag bit for the optional zero-terminated comment. -/
def FCOMMENT : Nat := 1 <<< 4

/-- Parsed gzip header, mirroring struct GzHeader of src/gz/mod.rs. -/
structure GzHeader where
  extra : Option (List Nat)
  filename : Option (List Nat)
  comment : Option (List Nat)
  operating_system : Nat
  mtime : Nat
deriving DecidableEq

/-- The error values produced by the gzip subsystem, keyed by
constructor; kind and message are recovered by the two functions
below. -/
inductive GzErr where
  | badHeader
  | corrupt
  | unexpectedEof
  | corruptDeflate
deriving DecidableEq

/-- The io::ErrorKind carried by each error value. -/
def ioErrorKind : GzErr → String
  | .badHeader => "InvalidInput"
  | .corrupt => "InvalidInput"
  | .unexpectedEof => "UnexpectedEof"
  | .corruptDeflate => "InvalidInput"

/-- The error message carried by each error value (UnexpectedEof is
constructed from its kind alone and carries no custom message). -/
def ioErrorMessage : GzErr → String
  | .badHeader => "invalid gzip header"
  | .corrupt => "corrupt gzip stream does not have a matching checksum"
  | .unexpectedEof => ""
  | .corruptDeflate => "corrupt deflate stream"

deriving instance DecidableEq for Except

/-- Builder for the gzip header, mirroring struct GzBuilder. The
filename and comment model the payload of a CString, whose bytes are
zero-free by construction; that invariant appears as a hypothesis where
it is needed. -/
structure GzBuilder where
  extra : Option (List Nat)
  filename : Option (List Nat)
  comment : Option (List Nat)
  operating_system : Option Nat
  mtime : Nat

/-- The default builder: no optional fields, mtime 0. -/
def GzBuilder.new : GzBuilder :=
  { extra := none, filename := none, comment := none,
    operating_system := none, mtime := 0 }

/-- Embedding of GzBuilder::into_header (src/gz/mod.rs lines 352-398):
start from ten zero bytes, append the optional sections while
accumulating the flag byte, then overwrite the first ten bytes. The
compression level scale has none = 0, fast = 1, default = 6, best = 9. -/
def into_header (b : GzBuilder) (lvl : Nat) : List Nat :=
  let start : List Nat := List.replicate 10 0
  let p1 : Nat × List Nat :=
    match b.extra with
    | some v => (0 ||| FEXTRA,
        start ++ [(v.length >>> 0) % 256, (v.length >>> 8) % 256] ++ v)
    | none => (0, start)
  let p2 : Nat × List Nat :=
    match b.filename with
    | some f => (p1.1 ||| FNAME, p1.2 ++ (f ++ [0]))
    | none => p1
  let p3 : Nat × List Nat :=
    match b.comment with
    | some c => (p2.1 ||| FCOMMENT, p2.2 ++ (c ++ [0]))
    | none => p2
  let xfl : Nat := if 9 ≤ lvl then 2 else if lvl ≤ 1 then 4 else 0
  p3.2 |>.set 0 0x1f |>.set 1 0x8b |>.set 2 8 |>.set 3 p3.1
    |>.set 4 (b.mtime % 256) |>.set 5 ((b.mtime >>> 8) % 256)
    |>.set 6 ((b.mtime >>> 16) % 256) |>.set 7 ((b.mtime >>> 24) % 256)
    |>.set 8 xfl |>.set 9 (b.operating_system.getD 255)

/-! ## The suspendable header parser

Embedding of read_gz_header_part and its Buffer adapter
(src/gz/bufread.rs lines 49-125 and 463-522), run against a complete
blocking source, so the replay buffer is always consumed whole and no
WouldBlock suspension occurs. The functions below reproduce, state by
state, what one full pass of the parser loop does. -/

/-- Semantics of Buffer::read_once into a zero-initialised buffer of
length k: the bytes read, padded with the untouched zeros when the
source ends early. -/
def readPad (k : Nat) (src : List Nat) : List Nat :=
  src.take k ++ List.replicate (k - src.length) 0

/-- Embedding of read_le_u16: combine two bytes little-endian. -/
def readLE16of (l : List Nat) : Nat :=
  l.getD 0 0 ||| (l.getD 1 0 <<< 8)

/-- Scan of the zero-terminated string loop of the Filename and Comment
states: returns the collected bytes (without the terminator), the bytes
fed to the header CRC (terminator included when found), and the rest of
the source. On end of input without a terminator the loop ends silently
with everything collected. -/
def zscan (src : List Nat) : List Nat × List Nat × List Nat :=
  let nm := src.takeWhile (fun b => b != 0)
  if nm.length < src.length then (nm, nm ++ [0], src.drop (nm.length + 1))
  else (nm, nm, [])

/-- Embedding of read_gz_header_part (src/gz/bufread.rs lines 49-125)
driven over a complete source. The header CRC used by the FHCRC check
accumulates exactly the bytes the Buffer's Crc sees in one pass: the
zero shortfall of every read_once call and the filename and comment
loops (terminators included); the ten fixed bytes, the xlen field and
the extra bytes are read through read_once, which never hashes the
bytes it actually reads. -/
def read_gz_header_part (src : List Nat) : Except GzErr (GzHeader × List Nat) :=
  let hdr := readPad 10 src
  let crc0 : List Nat := List.replicate (10 - src.length) 0
  let s1 := src.drop 10
  if hdr.getD 0 0 ≠ 0x1f ∨ hdr.getD 1 0 ≠ 0x8b then .error .badHeader
  else if hdr.getD 2 0 ≠ 8 then .error .badHeader
  else
    let flg := hdr.getD 3 0
    let mtime := (hdr.getD 4 0 <<< 0) ||| (hdr.getD 5 0 <<< 8) |||
      (hdr.getD 6 0 <<< 16) ||| (hdr.getD 7 0 <<< 24)
    let os := hdr.getD 9 0
    let xlen := if flg &&& FEXTRA ≠ 0 then readLE16of (readPad 2 s1) else 0
    let crc1 := crc0 ++ (if flg &&& FEXTRA ≠ 0 then List.replicate (2 - s1.length) 0 else [])
    let s2 := if flg &&& FEXTRA ≠ 0 then s1.drop 2 else s1
    let extra := if flg &&& FEXTRA ≠ 0 then some (readPad xlen s2) else none
    let crc2 := crc1 ++ (if flg &&& FEXTRA ≠ 0 then List.replicate (xlen - s2.length) 0 else [])
    let s3 := if flg &&& FEXTRA ≠ 0 then s2.drop xlen else s2
    let nsc := zscan s3
    let nm := if flg &&& FNAME ≠ 0 then nsc.1 else []
    let crc3 := crc2 ++ (if flg &&& FNAME ≠ 0 then nsc.2.1 else [])
    let s4 := if flg &&& FNAME ≠ 0 then nsc.2.2 else s3
    let csc := zscan s4
    let cm := if flg &&& FCOMMENT ≠ 0 then csc.1 else []
    let crc4 := crc3 ++ (if flg &&& FCOMMENT ≠ 0 then csc.2.1 else [])
    let s5 := if flg &&& FCOMMENT ≠ 0 then csc.2.2 else s4
    let header : GzHeader :=
      { extra := extra
        filename := if flg &&& FNAME ≠ 0 then some nm else none
        comment := if flg &&& FCOMMENT ≠ 0 then some cm else none
        operating_system := os
        mtime := mtime }
    if flg &&& FHCRC ≠ 0 then
      let stored := readLE16of (readPad 2 s5)
      let crcF := crc4 ++ List.replicate (2 - s5.length) 0
      let s6 := s5.drop 2
      let calced := crc32 0 crcF % 2 ^ 16
      if stored ≠ calced then .error .corrupt
      else .ok (header, s6)
    else .ok (header, s5)

/-- Embedding of the blocking parser read_gz_header (src/gz/bufread.rs
lines 127-202): every read goes through a CrcReader, so the header CRC
covers all bytes read before the stored checksum, and every fixed-size
read uses read_exact, which fails with UnexpectedEof on a short
source. -/
def read_gz_header (src : List Nat) : Except GzErr (GzHeader × List Nat) :=
  if src.length < 10 then .error .unexpectedEof
  else
    let hdr := src.take 10
    let crcA := hdr
    let s1 := src.drop 10
    if hdr.getD 0 0 ≠ 0x1f ∨ hdr.getD 1 0 ≠ 0x8b then .error .badHeader
    else if hdr.getD 2 0 ≠ 8 then .error .badHeader
    else
      let flg := hdr.getD 3 0
      let mtime := (hdr.getD 4 0 <<< 0) ||| (hdr.getD 5 0 <<< 8) |||
        (hdr.getD 6 0 <<< 16) ||| (hdr.getD 7 0 <<< 24)
      let os := hdr.getD 9 0
      if flg &&& FEXTRA ≠ 0 ∧ s1.length < 2 then .error .unexpectedEof
      else
        let xlen := if flg &&& FEXTRA ≠ 0 then readLE16of (s1.take 2) else 0
        let crcB := crcA ++ (if flg &&& FEXTRA ≠ 0 then s1.take 2 else [])
        let s2 := if flg &&& FEXTRA ≠ 0 then s1.drop 2 else s1
        if flg &&& FEXTRA ≠ 0 ∧ s2.length < xlen then .error .unexpectedEof
        else
          let extra := if flg &&& FEXTRA ≠ 0 then some (s2.take xlen) else none
          let crcC := crcB ++ (if flg &&& FEXTRA ≠ 0 then s2.take xlen else [])
          let s3 := if flg &&& FEXTRA ≠ 0 then s2.drop xlen else s2
          let nsc := zscan s3
          let filename := if flg &&& FNAME ≠ 0 then some nsc.1 else none
          let crcD := crcC ++ (if flg &&& FNAME ≠ 0 then nsc.2.1 else [])
          let s4 := if flg &&& FNAME ≠ 0 then nsc.2.2 else s3
          let csc := zscan s4
          let comment := if flg &&& FCOMMENT ≠ 0 then some csc.1 else none
          let crcE := crcD ++ (if flg &&& FCOMMENT ≠ 0 then csc.2.1 else [])
          let s5 := if flg &&& FCOMMENT ≠ 0 then csc.2.2 else s4
          let header : GzHeader :=
            { extra := extra, filename := filename, comment := comment,
              operating_system := os, mtime := mtime }
          if flg &&& FHCRC ≠ 0 then
            let calced := crc32 0 crcE % 2 ^ 16
            if s5.length < 2 then .error .unexpectedEof
            else
              let stored := readLE16of (s5.take 2)
              if calced ≠ stored then .error .corrupt
              else .ok (header, s5.drop 2)
          else .ok (header, s5)

/-! ## The DEFLATE body codec

The DEFLATE engine (the Huffman/LZ77 kernel behind
Compress/Decompress) is an external collaborator of the repository. -/

/-- Modelled from the spec: the external DEFLATE engine of RFC 1951 is
not part of this repository; the spec requires only that its output is
a self-terminating bitstream whose decoder recovers the input exactly
and stops at the end of the body. It is modelled as a self-delimiting
encoding, an 8-byte little-endian length followed by the stored bytes;
the compression level affects only the encoded size in the real engine
and is ignored by the model. -/
def deflate_encode (lvl : Nat) (v : List Nat) : List Nat :=
  let _ := lvl
  le 8 v.length ++ v

/-- Modelled from the spec: the matching decoder of the modelled DEFLATE
engine. Returns the decoded payload and the unconsumed rest of the
source, or none when the body is corrupt or truncated, which the
read adapter of src/zio.rs surfaces as the corrupt-deflate error. -/
def inflate_decode (src : List Nat) : Option (List Nat × List Nat) :=
  if 8 ≤ src.length then
    let n := loadLE (src.take 8)
    if 8 + n ≤ src.length then
      some (((src.drop 8).take n), src.drop (8 + n))
    else none
  else none

/-- Modelled from the spec: the Adler-32 checksum computed by the engine
for the zlib framing. -/
def adler32 (l : List Nat) : Nat :=
  let p := l.foldl
    (fun (p : Nat × Nat) b => (((p.1 + b) % 65521), (p.2 + (p.1 + b) % 65521) % 65521))
    (1, 0)
  p.2 * 65536 + p.1

/-- Modelled from the spec: zlib framing (RFC 1950) is delegated to the
engine via a positive window-bits configuration; two header bytes, the
DEFLATE body, then the Adler-32 of the plain data, big-endian in RFC
1950 but modelled little-endian for uniformity (the claims never
inspect the trailer bytes of the zlib framing individually). -/
def zlib_compress (lvl : Nat) (v : List Nat) : List Nat :=
  [0x78, 0x9c] ++ deflate_encode lvl v ++ le 4 (adler32 v)

/-- Modelled from the spec: the zlib decoder checks the two header bytes
(method 8 and a valid check remainder), inflates the body and verifies
the Adler-32 trailer. -/
def zlib_decompress (src : List Nat) : Option (List Nat × List Nat) :=
  match src with
  | cmf :: flg :: rest =>
      if cmf &&& 0xf = 8 ∧ (cmf * 256 + flg) % 31 = 0 then
        match inflate_decode rest with
        | some (v, r2) =>
            if 4 ≤ r2.length ∧ r2.take 4 = le 4 (adler32 v) then
              some (v, r2.drop 4)
            else none
        | none => none
      else none
  | _ => none

/-! ## Gzip encoder and decoder pipelines

Embeddings of the bufread GzEncoder and GzDecoder of
src/gz/bufread.rs, driven to completion over a complete source. -/

/-- Total output of the bufread GzEncoder read loop (src/gz/bufread.rs
lines 316-338): the builder's header, the DEFLATE body of the payload,
then the 8-byte footer holding the little-endian CRC-32 of the payload
and the little-endian payload length modulo two to the 32 (the Crc
counter is a wrapping u32). -/
def gz_encode (b : GzBuilder) (lvl : Nat) (v : List Nat) : List Nat :=
  into_header b lvl ++ deflate_encode lvl v ++
    le 4 (crc32 0 v) ++ le 4 (v.length % 2 ^ 32)

/-- Embedding of the trailer readback fn finish (src/gz/bufread.rs lines
303-314): little-endian CRC-32 then little-endian length from the
8-byte trailer buffer. -/
def finish (buf : List Nat) : Nat × Nat :=
  ((buf.getD 0 0 <<< 0) ||| (buf.getD 1 0 <<< 8) |||
     (buf.getD 2 0 <<< 16) ||| (buf.getD 3 0 <<< 24),
   (buf.getD 4 0 <<< 0) ||| (buf.getD 5 0 <<< 8) |||
     (buf.getD 6 0 <<< 16) ||| (buf.getD 7 0 <<< 24))

/-- One gzip member decoded by the GzDecoder state machine
(src/gz/bufread.rs lines 584-693) on a complete source: parse the
header, drain the DEFLATE body through the CRC-observing reader, then
collect the 8 trailer bytes from the raw source and compare them with
the accumulated CRC and byte count; a short trailer is UnexpectedEof
and a mismatch is the corrupt-checksum error. Returns the header, the
decompressed payload and the rest of the source. -/
def gz_decode_member (src : List Nat) :
    Except GzErr (GzHeader × List Nat × List Nat) :=
  match read_gz_header_part src with
  | .error e => .error e
  | .ok (h, s1) =>
      match inflate_decode s1 with
      | none => .error .corruptDeflate
      | some (payload, s2) =>
          if s2.length < 8 then .error .unexpectedEof
          else
            let f := finish (s2.take 8)
            if f.1 ≠ crc32 0 payload ∨ f.2 ≠ payload.length % 2 ^ 32 then
              .error .corrupt
            else .ok (h, payload, s2.drop 8)

/-- Output of a single-member GzDecoder read to the end: the payload of
the first member; once the trailer verifies, the decoder moves to its
End state and every further read returns zero bytes. -/
def gz_decode (src : List Nat) : Except GzErr (List Nat) :=
  match gz_decode_member src with
  | .error e => .error e
  | .ok (_, payload, _) => .ok payload

/-- Member loop of the MultiGzDecoder (the multi branch of
src/gz/bufread.rs lines 661-686): after a verified trailer, if the
source is empty the decoder ends, otherwise the CRC reader and the
DEFLATE reader are reset and the next member starts. Structural fuel
bounds the recursion; one extra unit over the source length always
suffices because every member consumes at least one byte. -/
def gz_decode_multi_go : Nat → List Nat → Except GzErr (List Nat)
  | 0, _ => .error .corruptDeflate
  | fuel + 1, src =>
      match gz_decode_member src with
      | .error e => .error e
      | .ok (_, payload, rest) =>
          if rest.isEmpty then .ok payload
          else
            match gz_decode_multi_go fuel rest with
            | .error e => .error e
            | .ok tl => .ok (payload ++ tl)

/-- Output of a MultiGzDecoder read to the end over a complete source. -/
def gz_decode_multi (src : List Nat) : Except GzErr (List Nat) :=
  gz_decode_multi_go (src.length + 1) src

/-! ## Per-call decoder state machine

Embedding of GzDecoder::read (src/gz/bufread.rs lines 584-693) as a
small-step machine over a complete list source, for the claims about
the behaviour of a single read call. The enum GzState is mirrored; the
CRC-observing reader is represented by the list of body bytes it has
delivered (its sum and amount are derived), and the inner DEFLATE
reader by the not-yet-delivered decoded payload. -/

/-- Mirror of enum GzState (src/gz/bufread.rs lines 451-458); the
header-parser variant needs no partial state because a complete source
never suspends, and the Finished variant carries the trailer position
and 8-byte buffer. -/
inductive GzState where
  | header : GzState
  | body : GzState
  | finished : Nat → List Nat → GzState
  | errSt : GzErr → GzState
  | endSt : GzState
deriving DecidableEq

/-- The decoder object: state, remaining raw source, the DEFLATE
reader's undelivered payload (none before the body is first pulled),
the bytes already delivered through the CRC reader, and the
multi-member flag. -/
structure GzDecoder where
  state : GzState
  src : List Nat
  pending : Option (List Nat)
  hashed : List Nat
  multi : Bool
deriving DecidableEq

/-- Write a chunk into a buffer at a position, replacing the bytes
there: the read into the trailer buffer slice at buf[pos..]. -/
def spliceAt (buf : List Nat) (pos : Nat) (chunk : List Nat) : List Nat :=
  buf.take pos ++ chunk ++ buf.drop (pos + chunk.length)

/-- One external read call of GzDecoder::read, with the number of bytes
the caller's output buffer can hold and structural fuel bounding the
internal loop (each iteration either returns or consumes fuel; any
fuel above the source length plus a small constant is enough). Returns
the call's io::Result and the decoder afterwards: Ok with the bytes
written, or the error, after which the state the loop left behind is
kept exactly as the source's mem::replace discipline leaves it. -/
def gzRead : Nat → Nat → GzDecoder → Except GzErr (List Nat) × GzDecoder
  | 0, _, d => (.ok [], d)
  | fuel + 1, intoLen, d =>
      match d.state with
      | .header =>
          match read_gz_header_part d.src with
          | .ok (_, rest) => gzRead fuel intoLen { d with state := .body, src := rest }
          | .error e => gzRead fuel intoLen { d with state := .errSt e }
      | .body =>
          if intoLen = 0 then (.ok [], { d with state := .body })
          else
            match d.pending with
            | none =>
                match inflate_decode d.src with
                | none => (.error .corruptDeflate, { d with state := .endSt })
                | some (p, rest) =>
                    gzRead fuel intoLen
                      { d with state := .body, pending := some p, src := rest }
            | some p =>
                if p.isEmpty then
                  gzRead fuel intoLen
                    { d with state := .finished 0 (List.replicate 8 0) }
                else
                  let k := min intoLen p.length
                  (.ok (p.take k),
                   { d with state := .body, pending := some (p.drop k),
                            hashed := d.hashed ++ p.take k })
      | .finished pos buf =>
          if pos < 8 then
            if d.src.isEmpty then (.error .unexpectedEof, { d with state := .endSt })
            else
              let n := min (8 - pos) d.src.length
              gzRead fuel intoLen
                { d with src := d.src.drop n,
                         state := .finished (pos + n) (spliceAt buf pos (d.src.take n)) }
          else
            let f := finish buf
            if f.1 ≠ crc32 0 d.hashed ∨ f.2 ≠ d.hashed.length % 2 ^ 32 then
              (.error .corrupt, { d with state := .endSt })
            else if d.multi then
              if d.src.isEmpty then gzRead fuel intoLen { d with state := .endSt }
              else
                gzRead fuel intoLen
                  { d with state := .header, hashed := [], pending := none }
            else gzRead fuel intoLen { d with state := .endSt }
      | .errSt e => (.error e, { d with state := .endSt })
      | .endSt => (.ok [], d)

/-! ## Memory codec counters

Embedding of the 64-bit total counters kept by the backend wrappers
CInflate and CDeflate (src/ffi.rs lines 104-307). The engine call
itself is external; a call is characterised by how many input bytes it
consumed and output bytes it produced, and the wrapper adds those
pointer-difference deltas to its own u64 accumulators before looking
at the engine's status, while the engine's internal counters are only
32 bits wide and wrap. -/

/-- Counter state of a Stream wrapper: the wrapper's u64 totals and the
engine's internal 32-bit totals. -/
structure CStream where
  total_in : Nat
  total_out : Nat
  raw_total_in : Nat
  raw_total_out : Nat
deriving DecidableEq

/-- Counter state at construction: all zero. -/
def CStream.init : CStream := ⟨0, 0, 0, 0⟩

/-- Counter effect of one decompress or compress call in which the
engine consumed and produced the given byte counts: the wrapper adds
the deltas into its u64 totals (wrapping as u64 does), and the
engine's own counters advance modulo two to the 32. -/
def codecStep (st : CStream) (consumed produced : Nat) : CStream :=
  { total_in := (st.total_in + consumed) % 2 ^ 64
    total_out := (st.total_out + produced) % 2 ^ 64
    raw_total_in := (st.raw_total_in + consumed) % 2 ^ 32
    raw_total_out := (st.raw_total_out + produced) % 2 ^ 32 }

/-- Counter effect of reset (src/ffi.rs lines 193-210 and 289-294):
both wrapper totals return to zero and the engine stream is
re-initialised. -/
def codecReset (_st : CStream) : CStream := CStream.init

/-- Counter state after a sequence of calls, each characterised by its
consumed and produced byte counts, starting from construction. -/
def codecRun (calls : List (Nat × Nat)) : CStream :=
  calls.foldl (fun st c => codecStep st c.1 c.2) CStream.init

/-- Total bytes consumed across a call sequence. -/
def sumIn (calls : List (Nat × Nat)) : Nat := (calls.map Prod.fst).sum

/-- Total bytes produced across a call sequence. -/
def sumOut (calls : List (Nat × Nat)) : Nat := (calls.map Prod.snd).sum

/-! ## The Crc object and combine

Embedding of struct Crc (src/crc.rs). The checksum arithmetic itself
lives in the external crc32fast / zlib-rs crates. -/

/-- The Crc state of src/crc.rs: the current checksum, the wrapping u32
byte counter amt, and the 64-bit byte count kept inside the external
hasher, which drives combine. -/
structure Crc where
  state : Nat
  amt : Nat
  len : Nat
deriving DecidableEq

/-- A fresh zero-state checksum. -/
def Crc.new : Crc := ⟨0, 0, 0⟩

/-- Current checksum. -/
def Crc.sum (c : Crc) : Nat := c.state

/-- Bytes consumed, accurate below two to the 32 (wrapping u32). -/
def Crc.amount (c : Crc) : Nat := c.amt

/-- Advance the checksum state over a byte list; both byte counters
advance by the data length at their respective widths. Modelled from
the spec for the checksum half: update advances the state by the IEEE
CRC-32 polynomial over the data. -/
def Crc.update (c : Crc) (data : List Nat) : Crc :=
  ⟨crc32 c.state data, (c.amt + data.length) % 2 ^ 32,
   (c.len + data.length) % 2 ^ 64⟩

/-- Reset to the zero state. -/
def Crc.reset (_c : Crc) : Crc := Crc.new

/-- Modelled from the spec: combine updates the state to the CRC of the
concatenation of this stream's prior bytes and the other's bytes,
given the other's length. The external crc32_combine implements this
through the zero-operator: shift this state by eight bits per byte of
the other stream through the CRC register, then xor the other state;
the u32 counter and the 64-bit hasher count are wrapping sums. -/
def Crc.combine (c other : Crc) : Crc :=
  ⟨crcShift (8 * other.len) c.state ^^^ other.state,
   (c.amt + other.amt) % 2 ^ 32,
   (c.len + other.len) % 2 ^ 64⟩

/-- The Crc of a single byte list, as produced by a fresh update. -/
def crc_of (l : List Nat) : Crc := Crc.new.update l

/-- A Crc value reachable from real states: counters within their
machine widths. -/
def Crc.Valid (c : Crc) : Prop := c.amt < 2 ^ 32 ∧ c.len < 2 ^ 64

instance : DecidablePred Crc.Valid := fun c => by
  unfold Crc.Valid
  infer_instance

/-! ## SIMD CRC-32

Embedding of the carryless-multiply folding implementation of
flate2-crc/src/x86.rs. A 128-bit register is a natural below two to
the 128, loaded little-endian from 16 bytes as _mm_loadu_si128 does;
_mm_clmulepi64_si128 is the carryless product of the selected 64-bit
halves; byte shifts of the register divide by powers of two. -/

/-- Carryless (GF(2) polynomial) product, processing the given number
of bits of the first operand; the pclmulqdq operands are 64-bit
halves, so 64 bits always suffice. -/
def clmulBits : Nat → Nat → Nat → Nat
  | 0, _, _ => 0
  | k + 1, a, b => (if a % 2 = 1 then b else 0) ^^^ 2 * clmulBits k (a / 2) b

/-- Carryless product of two 64-bit operands, the semantics of one
pclmulqdq lane selection. -/
def clmul (a b : Nat) : Nat := clmulBits 64 a b

/-- Folding constant K1 of the Intel CRC folding paper. -/
def K1 : Nat := 0x154442bd4

/-- Folding constant K2. -/
def K2 : Nat := 0x1c6e41596

/-- Folding constant K3. -/
def K3 : Nat := 0x1751997d0

/-- Folding constant K4. -/
def K4 : Nat := 0x0ccaa009e

/-- Folding constant K5. -/
def K5 : Nat := 0x163cd6124

/-- The CRC-32 polynomial constant P(x) used by the Barrett reduction. -/
def P_x : Nat := 0x1DB710641

/-- The Barrett constant mu. -/
def U_prime : Nat := 0x1F7011641

/-- Low 64-bit half of a 128-bit register. -/
def lo64 (x : Nat) : Nat := x % 2 ^ 64

/-- High 64-bit half of a 128-bit register. -/
def hi64 (x : Nat) : Nat := (x >>> 64) % 2 ^ 64

/-- Embedding of fn reduce128: fold register a into b through the pair
of constants held in the two halves of keys, using the low-low and
high-high carryless products. -/
def reduce128 (a b keys : Nat) : Nat :=
  (b ^^^ clmul (lo64 a) (lo64 keys)) ^^^ clmul (hi64 a) (hi64 keys)

/-- The register pair (K2:K1) built by _mm_set_epi64x(K2, K1). -/
def k1k2 : Nat := K1 + 2 ^ 64 * K2

/-- The register pair (K4:K3) built by _mm_set_epi64x(K4, K3). -/
def k3k4 : Nat := K3 + 2 ^ 64 * K4

/-- The fold-by-4 loop of fn calculate: while at least 64 bytes remain,
fold each accumulator with the next 16-byte block. Structural fuel; the
data length always suffices since every iteration consumes 64 bytes. -/
def fold4 : Nat → Nat → Nat → Nat → Nat → List Nat → Nat × Nat × Nat × Nat × List Nat
  | 0, x3, x2, x1, x0, data => (x3, x2, x1, x0, data)
  | fuel + 1, x3, x2, x1, x0, data =>
      if 64 ≤ data.length then
        fold4 fuel
          (reduce128 x3 (loadLE (data.take 16)) k1k2)
          (reduce128 x2 (loadLE ((data.drop 16).take 16)) k1k2)
          (reduce128 x1 (loadLE ((data.drop 32).take 16)) k1k2)
          (reduce128 x0 (loadLE ((data.drop 48).take 16)) k1k2)
          (data.drop 64)
      else (x3, x2, x1, x0, data)

/-- The fold-by-1 loop of fn calculate: while at least 16 bytes remain,
fold the accumulator with the next block through (K4:K3). -/
def fold1 : Nat → Nat → List Nat → Nat × List Nat
  | 0, x, data => (x, data)
  | fuel + 1, x, data =>
      if 16 ≤ data.length then
        fold1 fuel (reduce128 x (loadLE (data.take 16)) k3k4) (data.drop 16)
      else (x, data)

/-- Embedding of fn calculate (flate2-crc/src/x86.rs lines 44-147).
Inputs shorter than 128 bytes go straight to the fallback. Otherwise:
load four accumulators, fold the inverted initial CRC into the first,
run the fold-by-4 loop, merge the accumulators and run the fold-by-1
loop through (K4:K3), reduce 128 to 96 to 64 bits with K4 and K5,
perform the Barrett reduction to 32 bits, and hand any sub-16-byte
residue to the fallback seeded with the inverted result. -/
def calculate (crc : Nat) (data : List Nat) (fallback : Nat → List Nat → Nat) : Nat :=
  if data.length < 128 then fallback crc data
  else
    let x3 := loadLE (data.take 16)
    let x2 := loadLE ((data.drop 16).take 16)
    let x1 := loadLE ((data.drop 32).take 16)
    let x0 := loadLE ((data.drop 48).take 16)
    let rest := data.drop 64
    let x3 := x3 ^^^ (crc ^^^ 0xFFFFFFFF)
    let r := fold4 rest.length x3 x2 x1 x0 rest
    let m := fold1 r.2.2.2.2.length
      (reduce128 (reduce128 (reduce128 r.1 r.2.1 k3k4) r.2.2.1 k3k4) r.2.2.2.1 k3k4)
      r.2.2.2.2
    let x := m.1
    let x := clmul (lo64 x) K4 ^^^ (x >>> 64)
    let x := clmul (x % 2 ^ 32) K5 ^^^ (x >>> 32)
    let t1 := clmul (x % 2 ^ 32) U_prime
    let t2 := clmul (t1 % 2 ^ 32) P_x
    let c := ((x ^^^ t2) >>> 32) % 2 ^ 32
    if 0 < m.2.length then fallback (c ^^^ 0xFFFFFFFF) m.2
    else c ^^^ 0xFFFFFFFF

/-- Mirror of struct Hardware (flate2-crc/src/lib.rs): the capability
probe's verdict. -/
abbrev Hardware := Bool

/-- Embedding of Hardware::calculate (flate2-crc/src/lib.rs lines
33-46): dispatch to the SIMD implementation when the probe succeeded,
otherwise call the fallback directly. -/
def Hardware.calculate (h : Hardware) (crc : Nat) (data : List Nat)
    (fallback : Nat → List Nat → Nat) : Nat :=
  if h = (true : Bool) then Flate2.calculate crc data fallback
  else fallback crc data


/-! ## Supporting lemmas -/

theorem le_length (k n : Nat) : (le k n).length = k := by
  induction k generalizing n with
  | zero => rfl
  | succ k ih => simp [le, ih]

theorem loadLE_le (k n : Nat) : loadLE (le k n) = n % 2 ^ (8 * k) := by
  induction k generalizing n with
  | zero => simp [le, loadLE, Nat.mod_one]
  | succ k ih =>
      simp only [le, loadLE, ih, Nat.shiftRight_eq_div_pow]
      have h256 : (256 : Nat) = 2 ^ 8 := by norm_num
      rw [h256, Nat.mul_succ, Nat.pow_add, Nat.mul_comm (2 ^ (8 * k)) (2 ^ 8),
        Nat.mod_mul]

theorem loadLE_lt (l : List Nat) (h : IsBytes l) : loadLE l < 2 ^ (8 * l.length) := by
  induction l with
  | nil => simp [loadLE]
  | cons b t ih =>
      have hb : b < 256 := h b (List.mem_cons_self ..)
      have ht := ih (fun x hx => h x (List.mem_cons_of_mem _ hx))
      simp only [loadLE, List.length_cons]
      have : 2 ^ (8 * (t.length + 1)) = 256 * 2 ^ (8 * t.length) := by
        rw [Nat.mul_succ, Nat.pow_add]; ring
      omega

theorem le_bytes (k n : Nat) : IsBytes (le k n) := by
  induction k generalizing n with
  | zero => intro b hb; simp [le] at hb
  | succ k ih =>
      intro b hb
      simp only [le, List.mem_cons] at hb
      rcases hb with h | h
      · omega
      · exact ih _ b h

/-! ## Bitwise distribution lemmas -/

theorem shiftRight_distrib_xor (x y k : Nat) :
    (x ^^^ y) >>> k = (x >>> k) ^^^ (y >>> k) := by
  apply Nat.eq_of_testBit_eq
  intro i
  simp [Nat.testBit_shiftRight, Nat.testBit_xor]

theorem shiftRight_distrib_lor (x y k : Nat) :
    (x ||| y) >>> k = (x >>> k) ||| (y >>> k) := by
  apply Nat.eq_of_testBit_eq
  intro i
  simp [Nat.testBit_shiftRight, Nat.testBit_lor]

theorem mod_two_pow_xor (x y k : Nat) :
    (x ^^^ y) % 2 ^ k = (x % 2 ^ k) ^^^ (y % 2 ^ k) := by
  apply Nat.eq_of_testBit_eq
  intro i
  simp [Nat.testBit_mod_two_pow, Nat.testBit_xor, Bool.and_xor_distrib_left]

theorem mod_two_pow_lor (x y k : Nat) :
    (x ||| y) % 2 ^ k = (x % 2 ^ k) ||| (y % 2 ^ k) := by
  apply Nat.eq_of_testBit_eq
  intro i
  simp [Nat.testBit_mod_two_pow, Nat.testBit_lor, Bool.and_or_distrib_left]

theorem xor_disjoint (k : Nat) : ∀ a b : Nat, a < 2 ^ k → a ^^^ 2 ^ k * b = a + 2 ^ k * b := by
  induction k with
  | zero => intro a b h; interval_cases a; simp
  | succ k ih =>
      intro a b h
      have heq : 2 ^ (k + 1) * b = 2 * (2 ^ k * b) := by ring
      have hdiv : (a ^^^ 2 ^ (k + 1) * b) / 2 = a / 2 + 2 ^ k * b := by
        have h1 : (a ^^^ 2 ^ (k + 1) * b) / 2 = a / 2 ^^^ (2 ^ (k + 1) * b) / 2 := by
          have := shiftRight_distrib_xor a (2 ^ (k + 1) * b) 1
          simpa [Nat.shiftRight_one] using this
        have h2 : 2 ^ (k + 1) * b / 2 = 2 ^ k * b := by
          rw [heq, Nat.mul_div_cancel_left _ (by norm_num : (0:Nat) < 2)]
        have hpow : (2:Nat) ^ (k + 1) = 2 ^ k * 2 := by rw [Nat.pow_succ]
        rw [h1, h2]
        exact ih (a / 2) b (by rw [hpow] at h; omega)
      have hmod : (a ^^^ 2 ^ (k + 1) * b) % 2 = a % 2 := by
        have h1 : (a ^^^ 2 ^ (k + 1) * b) % 2 = a % 2 ^^^ (2 ^ (k + 1) * b) % 2 := by
          have := mod_two_pow_xor a (2 ^ (k + 1) * b) 1
          simpa using this
        have h2 : 2 ^ (k + 1) * b % 2 = 0 := by omega
        rw [h1, h2]
        simp
      have hdm := Nat.div_add_mod (a ^^^ 2 ^ (k + 1) * b) 2
      have ha := Nat.div_add_mod a 2
      rw [hdiv, hmod] at hdm
      omega

theorem lor_disjoint (k : Nat) : ∀ a b : Nat, a < 2 ^ k → a ||| 2 ^ k * b = a + 2 ^ k * b := by
  induction k with
  | zero => intro a b h; interval_cases a; simp
  | succ k ih =>
      intro a b h
      have heq : 2 ^ (k + 1) * b = 2 * (2 ^ k * b) := by ring
      have hdiv : (a ||| 2 ^ (k + 1) * b) / 2 = a / 2 + 2 ^ k * b := by
        have h1 : (a ||| 2 ^ (k + 1) * b) / 2 = a / 2 ||| (2 ^ (k + 1) * b) / 2 := by
          have := shiftRight_distrib_lor a (2 ^ (k + 1) * b) 1
          simpa [Nat.shiftRight_one] using this
        have h2 : 2 ^ (k + 1) * b / 2 = 2 ^ k * b := by
          rw [heq, Nat.mul_div_cancel_left _ (by norm_num : (0:Nat) < 2)]
        have hpow : (2:Nat) ^ (k + 1) = 2 ^ k * 2 := by rw [Nat.pow_succ]
        rw [h1, h2]
        exact ih (a / 2) b (by rw [hpow] at h; omega)
      have hmod : (a ||| 2 ^ (k + 1) * b) % 2 = a % 2 := by
        have h1 : (a ||| 2 ^ (k + 1) * b) % 2 = a % 2 ||| (2 ^ (k + 1) * b) % 2 := by
          have := mod_two_pow_lor a (2 ^ (k + 1) * b) 1
          simpa using this
        have h2 : 2 ^ (k + 1) * b % 2 = 0 := by omega
        rw [h1, h2]
        simp
      have hdm := Nat.div_add_mod (a ||| 2 ^ (k + 1) * b) 2
      have ha := Nat.div_add_mod a 2
      rw [hdiv, hmod] at hdm
      omega

theorem crcBitStep_zero : crcBitStep 0 = 0 := by decide

theorem xor_left_comm (a b c : Nat) : a ^^^ (b ^^^ c) = b ^^^ (a ^^^ c) := by
  rw [← Nat.xor_assoc, Nat.xor_comm a b, Nat.xor_assoc]

theorem crcBitStep_xor (x y : Nat) :
    crcBitStep (x ^^^ y) = crcBitStep x ^^^ crcBitStep y := by
  have hmod : (x ^^^ y) % 2 = x % 2 ^^^ y % 2 := by
    have := mod_two_pow_xor x y 1
    simpa using this
  have hdiv := shiftRight_distrib_xor x y 1
  unfold crcBitStep
  rcases Nat.mod_two_eq_zero_or_one x with hx | hx <;>
    rcases Nat.mod_two_eq_zero_or_one y with hy | hy <;>
      simp [hx, hy, hmod, hdiv, Nat.xor_assoc, Nat.xor_comm, xor_left_comm,
        Nat.xor_cancel_left]

theorem crcShift_add (m n c : Nat) :
    crcShift (m + n) c = crcShift n (crcShift m c) := by
  induction m generalizing c with
  | zero => simp [crcShift]
  | succ m ih =>
      have : m + 1 + n = m + n + 1 := by omega
      rw [this]
      simp only [crcShift]
      rw [ih]

theorem crcShift_zero_val (k : Nat) : crcShift k 0 = 0 := by
  induction k with
  | zero => rfl
  | succ k ih => simp [crcShift, crcBitStep_zero, ih]

theorem crcShift_xor (k x y : Nat) :
    crcShift k (x ^^^ y) = crcShift k x ^^^ crcShift k y := by
  induction k generalizing x y with
  | zero => rfl
  | succ k ih => simp [crcShift, crcBitStep_xor, ih]

/-- Feeding k zero bits to a state whose low k bits are clear merely
shifts it down. -/
theorem crcShift_pow_mul (k w : Nat) : crcShift k (2 ^ k * w) = w := by
  induction k generalizing w with
  | zero => simp [crcShift]
  | succ k ih =>
      simp only [crcShift]
      have heq : 2 ^ (k + 1) * w = 2 * (2 ^ k * w) := by ring
      have hstep : crcBitStep (2 ^ (k + 1) * w) = 2 ^ k * w := by
        unfold crcBitStep
        have heven : 2 ^ (k + 1) * w % 2 = 0 := by omega
        have hdiv : (2 ^ (k + 1) * w) >>> 1 = 2 ^ k * w := by
          rw [Nat.shiftRight_one, heq, Nat.mul_div_cancel_left _ (by norm_num : (0:Nat) < 2)]
        simp [heven, hdiv]
      rw [hstep, ih]

theorem crcBitStep_lt {c : Nat} {n : Nat} (hn : 32 ≤ n) (h : c < 2 ^ n) :
    crcBitStep c < 2 ^ n := by
  have hdiv : c >>> 1 < 2 ^ n := by
    rw [Nat.shiftRight_one]
    omega
  have hpoly : crcPoly < 2 ^ n := by
    have h32 : crcPoly < 2 ^ 32 := by decide
    calc crcPoly < 2 ^ 32 := h32
    _ ≤ 2 ^ n := Nat.pow_le_pow_right (by norm_num) hn
  unfold crcBitStep
  split
  · exact Nat.xor_lt_two_pow hdiv hpoly
  · exact hdiv

theorem crcShift_lt {c k n : Nat} (hn : 32 ≤ n) (h : c < 2 ^ n) :
    crcShift k c < 2 ^ n := by
  induction k generalizing c with
  | zero => exact h
  | succ k ih => exact ih (crcBitStep_lt hn h)

/-- A wide state narrows to 32 bits after enough zero bits. -/
theorem crcShift_narrow {c k : Nat} (h : c < 2 ^ (32 + k)) :
    crcShift k c < 2 ^ 32 := by
  induction k generalizing c with
  | zero => exact h
  | succ k ih =>
      simp only [crcShift]
      apply ih
      have hdiv : c >>> 1 < 2 ^ (32 + k) := by
        rw [Nat.shiftRight_one]
        have : 2 ^ (32 + (k + 1)) = 2 ^ (32 + k) * 2 := by
          rw [show 32 + (k + 1) = (32 + k) + 1 by omega, Nat.pow_succ]
        omega
      have hpoly : crcPoly < 2 ^ (32 + k) := by
        have h32 : crcPoly < 2 ^ 32 := by decide
        have : (2 : Nat) ^ 32 ≤ 2 ^ (32 + k) := Nat.pow_le_pow_right (by norm_num) (by omega)
        omega
      unfold crcBitStep
      split
      · exact Nat.xor_lt_two_pow hdiv hpoly
      · exact hdiv

theorem crcRaw_cons (c b : Nat) (t : List Nat) :
    crcRaw c (b :: t) = crcRaw (crcByteStep c b) t := rfl

theorem crcRaw_append (c : Nat) (u v : List Nat) :
    crcRaw c (u ++ v) = crcRaw (crcRaw c u) v := by
  simp [crcRaw, List.foldl_append]

/-- Affinity of the raw CRC register in its initial state: a change of
the initial state propagates linearly through any byte list. -/
theorem crcRaw_affine (l : List Nat) (x y : Nat) :
    crcRaw (x ^^^ y) l = crcRaw x l ^^^ crcShift (8 * l.length) y := by
  induction l generalizing x y with
  | nil => simp [crcRaw, crcShift]
  | cons b t ih =>
      have hstep : crcByteStep (x ^^^ y) b = crcByteStep x b ^^^ crcShift 8 y := by
        unfold crcByteStep
        rw [show x ^^^ y ^^^ b = (x ^^^ b) ^^^ y by
          rw [Nat.xor_assoc, Nat.xor_assoc, Nat.xor_comm y b]]
        exact crcShift_xor 8 (x ^^^ b) y
      rw [crcRaw_cons, crcRaw_cons, hstep, ih, ← crcShift_add 8 (8 * t.length) y]
      congr 2
      simp [List.length_cons]
      ring

/-- Feeding byte list l from state c equals feeding 8·|l| zero bits to
the state xored with the little-endian load of l. This is the bridge
between the byte-at-a-time CRC and wide-register folding. -/
theorem crcRaw_loadLE (l : List Nat) (hb : IsBytes l) (c : Nat) :
    crcRaw c l = crcShift (8 * l.length) (c ^^^ loadLE l) := by
  induction l generalizing c with
  | nil => simp [crcRaw, loadLE, crcShift]
  | cons b t ih =>
      have hbb : b < 256 := hb b (List.mem_cons_self ..)
      have hbt : IsBytes t := fun x hx => hb x (List.mem_cons_of_mem _ hx)
      rw [crcRaw_cons, ih hbt]
      have hload : b + 256 * loadLE t = b ^^^ 2 ^ 8 * loadLE t := by
        rw [xor_disjoint 8 b (loadLE t) (by omega)]
        norm_num
      have hkey : crcByteStep c b ^^^ loadLE t =
          crcShift 8 (c ^^^ loadLE (b :: t)) := by
        show crcByteStep c b ^^^ loadLE t = crcShift 8 (c ^^^ (b + 256 * loadLE t))
        rw [hload, show c ^^^ (b ^^^ 2 ^ 8 * loadLE t) = (c ^^^ b) ^^^ 2 ^ 8 * loadLE t by
          rw [Nat.xor_assoc]]
        rw [crcShift_xor 8 (c ^^^ b) (2 ^ 8 * loadLE t), crcShift_pow_mul 8 (loadLE t)]
        rfl
      rw [show crcByteStep c b ^^^ loadLE t = (crcByteStep c b) ^^^ loadLE t from rfl] at hkey
      calc crcShift (8 * t.length) (crcByteStep c b ^^^ loadLE t)
          = crcShift (8 * t.length) (crcShift 8 (c ^^^ loadLE (b :: t))) := by rw [hkey]
        _ = crcShift (8 + 8 * t.length) (c ^^^ loadLE (b :: t)) := by rw [← crcShift_add]
        _ = crcShift (8 * (b :: t).length) (c ^^^ loadLE (b :: t)) := by
              congr 1
              simp [List.length_cons]
              ring

theorem crcRaw_lt {c : Nat} (l : List Nat) (hb : IsBytes l) (h : c < 2 ^ 32) :
    crcRaw c l < 2 ^ 32 := by
  induction l generalizing c with
  | nil => exact h
  | cons b t ih =>
      have hbb : b < 2 ^ 32 := by
        have := hb b (List.mem_cons_self ..)
        omega
      exact ih (fun x hx => hb x (List.mem_cons_of_mem _ hx))
        (crcShift_lt (le_refl 32) (Nat.xor_lt_two_pow h hbb))

theorem crc32_lt (c : Nat) (l : List Nat) (hb : IsBytes l) (h : c < 2 ^ 32) :
    crc32 c l < 2 ^ 32 := by
  unfold crc32
  apply Nat.xor_lt_two_pow _ (by norm_num)
  apply crcRaw_lt _ hb
  exact Nat.xor_lt_two_pow h (by norm_num)

/-! ## Claim C7: the emitted gzip header layout -/

/-- Decomposition of into_header: the ten fixed bytes followed by the
optional sections in order. -/
theorem into_header_decomp (b : GzBuilder) (lvl : Nat) :
    into_header b lvl =
      [0x1f, 0x8b, 8,
        (if b.extra.isSome then FEXTRA else 0) |||
          (if b.filename.isSome then FNAME else 0) |||
          (if b.comment.isSome then FCOMMENT else 0)]
      ++ le 4 b.mtime
      ++ [if 9 ≤ lvl then 2 else if lvl ≤ 1 then 4 else 0,
          b.operating_system.getD 255]
      ++ (match b.extra with | some v => le 2 v.length ++ v | none => [])
      ++ (match b.filename with | some f => f ++ [0] | none => [])
      ++ (match b.comment with | some c => c ++ [0] | none => []) := by
  obtain ⟨e, f, c, os, m⟩ := b
  rcases e with _ | v <;> rcases f with _ | fn <;> rcases c with _ | cm <;>
    rcases os with _ | o <;>
    simp [into_header, le, List.replicate, ← Nat.shiftRight_add]


/-- C7: for every builder configuration and compression level, the
emitted gzip header starts with 0x1f 0x8b 0x08; byte 3 carries exactly
the FEXTRA, FNAME, FCOMMENT bits of the configured fields and never
FHCRC; bytes 4 to 7 hold mtime little-endian; byte 8 is 2 when the
level is at least best (9), 4 when at most fast (1), else 0; byte 9 is
the configured OS byte or 255; then, in order, the u16-little-endian
length-prefixed extra bytes, the zero-terminated filename and the
zero-terminated comment, each present exactly when configured. -/
theorem C7_into_header_layout (b : GzBuilder) (lvl : Nat)
    (hm : b.mtime < 2 ^ 32)
    (hx : ∀ v, b.extra = some v → v.length < 2 ^ 16) :
    into_header b lvl =
      [0x1f, 0x8b, 8,
        (if b.extra.isSome then FEXTRA else 0) |||
          (if b.filename.isSome then FNAME else 0) |||
          (if b.comment.isSome then FCOMMENT else 0)]
      ++ le 4 b.mtime
      ++ [if 9 ≤ lvl then 2 else if lvl ≤ 1 then 4 else 0,
          b.operating_system.getD 255]
      ++ (match b.extra with | some v => le 2 v.length ++ v | none => [])
      ++ (match b.filename with | some f => f ++ [0] | none => [])
      ++ (match b.comment with | some c => c ++ [0] | none => []) ∧
    ((if b.extra.isSome then FEXTRA else 0) |||
       (if b.filename.isSome then FNAME else 0) |||
       (if b.comment.isSome then FCOMMENT else 0)) &&& FHCRC = 0 ∧
    ((if b.extra.isSome then FEXTRA else 0) |||
       (if b.filename.isSome then FNAME else 0) |||
       (if b.comment.isSome then FCOMMENT else 0)) &&& FEXTRA =
      (if b.extra.isSome then FEXTRA else 0) ∧
    ((if b.extra.isSome then FEXTRA else 0) |||
       (if b.filename.isSome then FNAME else 0) |||
       (if b.comment.isSome then FCOMMENT else 0)) &&& FNAME =
      (if b.filename.isSome then FNAME else 0) ∧
    ((if b.extra.isSome then FEXTRA else 0) |||
       (if b.filename.isSome then FNAME else 0) |||
       (if b.comment.isSome then FCOMMENT else 0)) &&& FCOMMENT =
      (if b.comment.isSome then FCOMMENT else 0) ∧
    loadLE (le 4 b.mtime) = b.mtime ∧
    (∀ v, b.extra = some v → loadLE (le 2 v.length) = v.length) := by
  obtain ⟨e, f, c, os, m⟩ := b
  refine ⟨?_, ?_, ?_, ?_, ?_, ?_, ?_⟩
  · exact into_header_decomp ⟨e, f, c, os, m⟩ lvl
  · rcases e with _ | v <;> rcases f with _ | fn <;> rcases c with _ | cm <;>
      simp <;> decide
  · rcases e with _ | v <;> rcases f with _ | fn <;> rcases c with _ | cm <;>
      simp <;> decide
  · rcases e with _ | v <;> rcases f with _ | fn <;> rcases c with _ | cm <;>
      simp <;> decide
  · rcases e with _ | v <;> rcases f with _ | fn <;> rcases c with _ | cm <;>
      simp <;> decide
  · rw [loadLE_le]
    simpa using Nat.mod_eq_of_lt hm
  · intro v hv
    rw [loadLE_le]
    have := hx v hv
    simpa using Nat.mod_eq_of_lt this

/-- Witness for C7 at a concrete configuration with all three optional
fields, OS byte 3, mtime 123 and best level. -/
theorem C7_witness :
    ((⟨some [1, 2], some [102], some [99], some 3, 123⟩ : GzBuilder).mtime < 2 ^ 32 ∧
      (∀ v, (⟨some [1, 2], some [102], some [99], some 3, 123⟩ : GzBuilder).extra = some v →
        v.length < 2 ^ 16)) ∧
    into_header ⟨some [1, 2], some [102], some [99], some 3, 123⟩ 9 =
      [0x1f, 0x8b, 8, FEXTRA ||| FNAME ||| FCOMMENT] ++ le 4 123 ++ [2, 3] ++
        (le 2 2 ++ [1, 2]) ++ ([102] ++ [0]) ++ ([99] ++ [0]) := by
  refine ⟨⟨by decide, ?_⟩, ?_⟩
  · intro v hv
    simp only [Option.some.injEq] at hv
    subst hv
    decide
  · have h := C7_into_header_layout ⟨some [1, 2], some [102], some [99], some 3, 123⟩ 9
      (by decide) (by intro v hv; simp only [Option.some.injEq] at hv; subst hv; decide)
    rw [h.1]
    decide

/-! ## Claim C9: 64-bit total counters -/

theorem codecFold_total (calls : List (Nat × Nat)) :
    ∀ st : CStream, st.total_in < 2 ^ 64 → st.total_out < 2 ^ 64 →
      st.raw_total_in < 2 ^ 32 → st.raw_total_out < 2 ^ 32 →
      (calls.foldl (fun s c => codecStep s c.1 c.2) st).total_in =
          (st.total_in + sumIn calls) % 2 ^ 64 ∧
        (calls.foldl (fun s c => codecStep s c.1 c.2) st).total_out =
          (st.total_out + sumOut calls) % 2 ^ 64 ∧
        (calls.foldl (fun s c => codecStep s c.1 c.2) st).raw_total_in =
          (st.raw_total_in + sumIn calls) % 2 ^ 32 ∧
        (calls.foldl (fun s c => codecStep s c.1 c.2) st).raw_total_out =
          (st.raw_total_out + sumOut calls) % 2 ^ 32 := by
  induction calls with
  | nil =>
      intro st h1 h2 h3 h4
      simp only [List.foldl_nil, sumIn, sumOut, List.map_nil, List.sum_nil,
        Nat.add_zero]
      exact ⟨(Nat.mod_eq_of_lt h1).symm, (Nat.mod_eq_of_lt h2).symm,
        (Nat.mod_eq_of_lt h3).symm, (Nat.mod_eq_of_lt h4).symm⟩
  | cons c t ih =>
      intro st h1 h2 h3 h4
      have hstep := ih (codecStep st c.1 c.2)
        (Nat.mod_lt _ (by norm_num)) (Nat.mod_lt _ (by norm_num))
        (Nat.mod_lt _ (by norm_num)) (Nat.mod_lt _ (by norm_num))
      simp only [List.foldl_cons]
      refine ⟨?_, ?_, ?_, ?_⟩
      · rw [hstep.1]
        simp only [codecStep]
        rw [Nat.mod_add_mod]
        simp only [sumIn, List.map_cons, List.sum_cons]
        congr 1
        omega
      · rw [hstep.2.1]
        simp only [codecStep]
        rw [Nat.mod_add_mod]
        simp only [sumOut, List.map_cons, List.sum_cons]
        congr 1
        omega
      · rw [hstep.2.2.1]
        simp only [codecStep]
        rw [Nat.mod_add_mod]
        simp only [sumIn, List.map_cons, List.sum_cons]
        congr 1
        omega
      · rw [hstep.2.2.2]
        simp only [codecStep]
        rw [Nat.mod_add_mod]
        simp only [sumOut, List.map_cons, List.sum_cons]
        congr 1
        omega

/-- C9: across any sequence of compress or decompress calls, each
characterised by the bytes the engine consumed and produced, the
wrapper's 64-bit totals equal the running sums of the per-call deltas
(modulo two to the 64, the u64 width): each call advances them by
exactly its delta, they never decrease while the u64 total cannot wrap
(below two to the 64 total bytes), reset returns them to zero, and the
value of the engine's internal 32-bit counters, which wrap at two to
the 32, never influences the reported totals. -/
theorem C9_total_counters (calls : List (Nat × Nat)) (st : CStream)
    (c p : Nat) (hin : st.total_in + c < 2 ^ 64)
    (hout : st.total_out + p < 2 ^ 64) :
    (codecRun calls).total_in = sumIn calls % 2 ^ 64 ∧
    (codecRun calls).total_out = sumOut calls % 2 ^ 64 ∧
    (codecRun calls).raw_total_in = sumIn calls % 2 ^ 32 ∧
    (codecRun calls).raw_total_out = sumOut calls % 2 ^ 32 ∧
    (codecStep st c p).total_in = st.total_in + c ∧
    (codecStep st c p).total_out = st.total_out + p ∧
    st.total_in ≤ (codecStep st c p).total_in ∧
    st.total_out ≤ (codecStep st c p).total_out ∧
    codecReset st = CStream.init ∧
    CStream.init.total_in = 0 ∧ CStream.init.total_out = 0 := by
  have h := codecFold_total calls CStream.init (by decide) (by decide)
    (by decide) (by decide)
  have hzero : CStream.init.total_in = 0 ∧ CStream.init.total_out = 0 ∧
      CStream.init.raw_total_in = 0 ∧ CStream.init.raw_total_out = 0 := by
    refine ⟨rfl, rfl, rfl, rfl⟩
  have hstep_in : (codecStep st c p).total_in = st.total_in + c := by
    simp only [codecStep]
    exact Nat.mod_eq_of_lt hin
  have hstep_out : (codecStep st c p).total_out = st.total_out + p := by
    simp only [codecStep]
    exact Nat.mod_eq_of_lt hout
  refine ⟨?_, ?_, ?_, ?_, hstep_in, hstep_out, ?_, ?_, rfl, rfl, rfl⟩
  · rw [show codecRun calls = calls.foldl (fun s cc => codecStep s cc.1 cc.2) CStream.init
      from rfl, h.1, hzero.1, Nat.zero_add]
  · rw [show codecRun calls = calls.foldl (fun s cc => codecStep s cc.1 cc.2) CStream.init
      from rfl, h.2.1, hzero.2.1, Nat.zero_add]
  · rw [show codecRun calls = calls.foldl (fun s cc => codecStep s cc.1 cc.2) CStream.init
      from rfl, h.2.2.1, hzero.2.2.1, Nat.zero_add]
  · rw [show codecRun calls = calls.foldl (fun s cc => codecStep s cc.1 cc.2) CStream.init
      from rfl, h.2.2.2, hzero.2.2.2, Nat.zero_add]
  · rw [hstep_in]
    omega
  · rw [hstep_out]
    omega

/-- Witness for C9 at a concrete call sequence and counter state. -/
theorem C9_witness :
    ((⟨10, 20, 10, 20⟩ : CStream).total_in + 4 < 2 ^ 64 ∧
      (⟨10, 20, 10, 20⟩ : CStream).total_out + 6 < 2 ^ 64) ∧
    ((codecRun [(3, 5), (2, 1)]).total_in = sumIn [(3, 5), (2, 1)] % 2 ^ 64 ∧
      (codecRun [(3, 5), (2, 1)]).total_out = sumOut [(3, 5), (2, 1)] % 2 ^ 64 ∧
      (codecRun [(3, 5), (2, 1)]).raw_total_in = sumIn [(3, 5), (2, 1)] % 2 ^ 32 ∧
      (codecRun [(3, 5), (2, 1)]).raw_total_out = sumOut [(3, 5), (2, 1)] % 2 ^ 32 ∧
      (codecStep ⟨10, 20, 10, 20⟩ 4 6).total_in = (⟨10, 20, 10, 20⟩ : CStream).total_in + 4 ∧
      (codecStep ⟨10, 20, 10, 20⟩ 4 6).total_out = (⟨10, 20, 10, 20⟩ : CStream).total_out + 6 ∧
      (⟨10, 20, 10, 20⟩ : CStream).total_in ≤ (codecStep ⟨10, 20, 10, 20⟩ 4 6).total_in ∧
      (⟨10, 20, 10, 20⟩ : CStream).total_out ≤ (codecStep ⟨10, 20, 10, 20⟩ 4 6).total_out ∧
      codecReset ⟨10, 20, 10, 20⟩ = CStream.init ∧
      CStream.init.total_in = 0 ∧ CStream.init.total_out = 0) :=
  ⟨⟨by decide, by decide⟩,
   C9_total_counters [(3, 5), (2, 1)] ⟨10, 20, 10, 20⟩ 4 6 (by decide) (by decide)⟩

/-! ## Claim C8: Crc.combine is the CRC of the concatenation -/

/-- Splitting of the CRC-32 over concatenation through the
zero-operator: the CRC of the concatenation is the first CRC shifted by
eight bit steps per byte of the second stream, xored with the second
CRC. This is the identity implemented by crc32_combine. -/
theorem crc32_append_shift (a l : List Nat) :
    crc32 0 (a ++ l) = crcShift (8 * l.length) (crc32 0 a) ^^^ crc32 0 l := by
  unfold crc32
  rw [crcRaw_append]
  simp only [Nat.zero_xor]
  conv_lhs => rw [← Nat.xor_cancel_left 0xFFFFFFFF (crcRaw 0xFFFFFFFF a)]
  rw [crcRaw_affine]
  simp only [Nat.xor_comm, Nat.xor_assoc, xor_left_comm]

/-- C8: combining the Crc of byte stream a with the Crc of byte stream
b yields the Crc whose sum is the CRC-32 of the concatenation and whose
counters are the (machine-width) sums; combine is associative on
states whose 64-bit counts do not overflow, and the fresh zero-length
Crc is a two-sided identity on valid states. -/
theorem C8_combine_monoid (a b : List Nat) (x y z : Crc)
    (hb : b.length < 2 ^ 64)
    (hyz : y.len + z.len < 2 ^ 64)
    (hx : x.Valid) :
    (crc_of a).combine (crc_of b) = crc_of (a ++ b) ∧
    (x.combine y).combine z = x.combine (y.combine z) ∧
    Crc.new.combine x = x ∧ x.combine Crc.new = x := by
  obtain ⟨xs, xa, xl⟩ := x
  obtain ⟨ys, ya, yl⟩ := y
  obtain ⟨zs, za, zl⟩ := z
  obtain ⟨hxa, hxl⟩ := hx
  simp only [Crc.Valid] at hxa hxl
  refine ⟨?_, ?_, ?_, ?_⟩
  · simp only [crc_of, Crc.update, Crc.combine, Crc.new, Crc.mk.injEq]
    refine ⟨?_, by simp [List.length_append], by simp [List.length_append]⟩
    rw [Nat.zero_add, Nat.mod_eq_of_lt hb, crc32_append_shift]
  · simp only [Crc.combine, Crc.mk.injEq] at *
    refine ⟨?_, by omega, by omega⟩
    rw [Nat.mod_eq_of_lt (by omega : yl + zl < 2 ^ 64)]
    rw [crcShift_xor]
    rw [← crcShift_add (8 * yl) (8 * zl) xs]
    rw [show 8 * yl + 8 * zl = 8 * (yl + zl) by ring]
    rw [Nat.xor_assoc]
  · simp only [Crc.combine, Crc.new, Crc.mk.injEq]
    refine ⟨?_, by omega, by omega⟩
    rw [crcShift_zero_val, Nat.zero_xor]
  · simp only [Crc.combine, Crc.new, Crc.mk.injEq]
    refine ⟨?_, by omega, by omega⟩
    simp [crcShift]

/-- Witness for C8 at two concrete byte streams and three concrete
states. -/
theorem C8_witness :
    (([104, 105] : List Nat).length < 2 ^ 64 ∧
      (⟨7, 3, 3⟩ : Crc).len + (⟨9, 2, 2⟩ : Crc).len < 2 ^ 64 ∧
      (⟨5, 1, 1⟩ : Crc).Valid) ∧
    ((crc_of [1, 2, 3]).combine (crc_of [104, 105]) = crc_of ([1, 2, 3] ++ [104, 105]) ∧
      ((⟨5, 1, 1⟩ : Crc).combine ⟨7, 3, 3⟩).combine ⟨9, 2, 2⟩ =
        (⟨5, 1, 1⟩ : Crc).combine ((⟨7, 3, 3⟩ : Crc).combine ⟨9, 2, 2⟩) ∧
      Crc.new.combine ⟨5, 1, 1⟩ = ⟨5, 1, 1⟩ ∧
      (⟨5, 1, 1⟩ : Crc).combine Crc.new = ⟨5, 1, 1⟩) :=
  ⟨⟨by decide, by decide, by decide⟩,
   C8_combine_monoid [1, 2, 3] [104, 105] ⟨5, 1, 1⟩ ⟨7, 3, 3⟩ ⟨9, 2, 2⟩
     (by decide) (by decide) (by decide)⟩

/-! ## Claim C5: non-gzip magic or method is rejected -/

theorem readPad_getD (k : Nat) (src : List Nat) (i : Nat) (h : i < k) :
    (readPad k src).getD i 0 = src.getD i 0 := by
  unfold readPad
  simp only [List.getD_eq_getElem?_getD, List.getElem?_append, List.getElem?_take,
    List.length_take, List.getElem?_replicate]
  by_cases hi : i < src.length
  · have : i < min k src.length := by omega
    simp [this, h, hi]
  · have h1 : ¬ i < min k src.length := by omega
    have h2 : src[i]? = none := List.getElem?_eq_none (by omega)
    have h3 : i - min k src.length < k - src.length := by omega
    simp [h1, h2, h3]

/-- C5: whenever the first two bytes of the source differ from
0x1f 0x8b, or its third byte differs from 8 (bytes past the end of a
short source read as the zero padding of the parser's buffer, exactly
as in the code), the header parser, the single-member decoder and the
multi-member decoder all fail with the InvalidInput error whose message
is the invalid-gzip-header message, and no decompressed output is
produced. -/
theorem C5_invalid_header (src : List Nat)
    (h : src.getD 0 0 ≠ 0x1f ∨ src.getD 1 0 ≠ 0x8b ∨ src.getD 2 0 ≠ 8) :
    read_gz_header_part src = .error .badHeader ∧
    gz_decode src = .error .badHeader ∧
    gz_decode_multi src = .error .badHeader ∧
    ioErrorKind .badHeader = "InvalidInput" ∧
    ioErrorMessage .badHeader = "invalid gzip header" := by
  have h0 := readPad_getD 10 src 0 (by norm_num)
  have h1 := readPad_getD 10 src 1 (by norm_num)
  have h2 := readPad_getD 10 src 2 (by norm_num)
  have hparse : read_gz_header_part src = .error .badHeader := by
    unfold read_gz_header_part
    simp only [h0, h1, h2]
    by_cases hA : src.getD 0 0 ≠ 0x1f ∨ src.getD 1 0 ≠ 0x8b
    · rw [if_pos hA]
    · rw [if_neg hA]
      have hB : src.getD 2 0 ≠ 8 := by tauto
      rw [if_pos hB]
  have hdec : gz_decode src = .error .badHeader := by
    unfold gz_decode gz_decode_member
    rw [hparse]
  have hmulti : gz_decode_multi src = .error .badHeader := by
    unfold gz_decode_multi gz_decode_multi_go gz_decode_member
    rw [hparse]
  exact ⟨hparse, hdec, hmulti, rfl, rfl⟩

/-- Witness for C5 on the PNG signature, whose second byte differs from
0x8b. -/
theorem C5_witness :
    (([0x89, 0x50, 0x4e, 0x47] : List Nat).getD 0 0 ≠ 0x1f ∨
      ([0x89, 0x50, 0x4e, 0x47] : List Nat).getD 1 0 ≠ 0x8b ∨
      ([0x89, 0x50, 0x4e, 0x47] : List Nat).getD 2 0 ≠ 8) ∧
    (read_gz_header_part [0x89, 0x50, 0x4e, 0x47] = .error .badHeader ∧
      gz_decode [0x89, 0x50, 0x4e, 0x47] = .error .badHeader ∧
      gz_decode_multi [0x89, 0x50, 0x4e, 0x47] = .error .badHeader ∧
      ioErrorKind .badHeader = "InvalidInput" ∧
      ioErrorMessage .badHeader = "invalid gzip header") :=
  ⟨by decide, C5_invalid_header [0x89, 0x50, 0x4e, 0x47] (by decide)⟩

/-! ## Claim C6: the FHCRC check of the suspendable parser -/

/-- C6 evaluation: a 12-byte gzip header with only FHCRC set whose
stored 16-bit checksum equals the low 16 bits of the CRC-32 of the ten
preceding header bytes (the RFC 1952 value, as the first conjunct
states). The repository's blocking parser read_gz_header accepts it,
but the suspendable parser read_gz_header_part, which the bufread
GzDecoder uses, rejects it with the corrupt-checksum error, because its
Buffer hashes only the filename and comment loops and the zero padding
of short reads, never the bytes read through read_once. -/
theorem C6_fhcrc_code_bug :
    readLE16of [0x90, 0xC9] = crc32 0 [0x1f, 0x8b, 8, 2, 0, 0, 0, 0, 0, 255] % 2 ^ 16 ∧
    read_gz_header ([0x1f, 0x8b, 8, 2, 0, 0, 0, 0, 0, 255] ++ [0x90, 0xC9]) =
      .ok (⟨none, none, none, 255, 0⟩, []) ∧
    read_gz_header_part ([0x1f, 0x8b, 8, 2, 0, 0, 0, 0, 0, 255] ++ [0x90, 0xC9]) =
      .error .corrupt ∧
    ioErrorMessage .corrupt = "corrupt gzip stream does not have a matching checksum" := by
  decide

/-! ## Claim C10: empty output buffer in the Body state -/

/-- C10: a decoder in the Body state, asked to read into an empty
output buffer, returns Ok with zero bytes immediately: the underlying
source is not read, nothing is decompressed, and the decoder is
returned unchanged, for any fuel allowing at least one loop entry.
Consequently a zero-byte read signals end of stream only when the
caller's buffer is non-empty. -/
theorem C10_empty_read_body (d : GzDecoder) (fuel : Nat) (h : d.state = .body) :
    gzRead (fuel + 1) 0 d = (.ok [], d) := by
  obtain ⟨st, src, pend, hashed, multi⟩ := d
  simp only at h
  subst h
  simp [gzRead]

/-- Witness for C10 at a concrete mid-body decoder. -/
theorem C10_witness :
    (⟨GzState.body, [1, 2, 3], some [4, 5], [6], false⟩ : GzDecoder).state = .body ∧
    gzRead 1 0 ⟨GzState.body, [1, 2, 3], some [4, 5], [6], false⟩ =
      (.ok [], ⟨GzState.body, [1, 2, 3], some [4, 5], [6], false⟩) :=
  ⟨rfl, C10_empty_read_body ⟨GzState.body, [1, 2, 3], some [4, 5], [6], false⟩ 0 rfl⟩

/-! ## Claim C3: the trailer stage after the body drains -/

/-- C3: once the body has drained and the decoder sits at the start of
the Finished state (position 0, zeroed 8-byte buffer) with the CRC
reader having accumulated the decompressed bytes, a read call consumes
exactly 8 trailer bytes from the raw source: a source shorter than 8
bytes ends in UnexpectedEof (after consuming what there was); with 8
bytes available, exactly 8 are consumed, and the call fails with the
corrupt-checksum InvalidInput error exactly when the little-endian
CRC-32 field differs from the accumulated CRC or the little-endian
length field differs from the decompressed byte count modulo two to
the 32, and otherwise ends the (single-member) stream cleanly. -/
theorem C3_trailer_stage (s hashed : List Nat) (pend : Option (List Nat))
    (intoLen fuel : Nat) :
    (s.length < 8 →
      gzRead (fuel + 2) intoLen
          ⟨.finished 0 (List.replicate 8 0), s, pend, hashed, false⟩ =
        (.error .unexpectedEof, ⟨.endSt, [], pend, hashed, false⟩)) ∧
    (8 ≤ s.length →
      ((finish (s.take 8)).1 ≠ crc32 0 hashed ∨
          (finish (s.take 8)).2 ≠ hashed.length % 2 ^ 32) →
      gzRead (fuel + 2) intoLen
          ⟨.finished 0 (List.replicate 8 0), s, pend, hashed, false⟩ =
        (.error .corrupt, ⟨.endSt, s.drop 8, pend, hashed, false⟩)) ∧
    (8 ≤ s.length →
      (finish (s.take 8)).1 = crc32 0 hashed →
      (finish (s.take 8)).2 = hashed.length % 2 ^ 32 →
      gzRead (fuel + 3) intoLen
          ⟨.finished 0 (List.replicate 8 0), s, pend, hashed, false⟩ =
        (.ok [], ⟨.endSt, s.drop 8, pend, hashed, false⟩)) ∧
    ioErrorKind .unexpectedEof = "UnexpectedEof" ∧
    ioErrorKind .corrupt = "InvalidInput" ∧
    ioErrorMessage .corrupt = "corrupt gzip stream does not have a matching checksum" := by
  have hsplice : ∀ chunk : List Nat, chunk.length = 8 →
      spliceAt (List.replicate 8 0) 0 chunk = chunk := by
    intro chunk hc
    unfold spliceAt
    rw [List.take_zero, List.nil_append, Nat.zero_add, hc]
    simp
  refine ⟨?_, ?_, ?_, rfl, rfl, rfl⟩
  · intro hlt
    by_cases hempty : s = []
    · subst hempty
      simp [gzRead]
    · have hne : s.isEmpty = false := by
        simpa [List.isEmpty_iff] using hempty
      have hmin : min (8 - 0) s.length = s.length := by omega
      simp only [gzRead, hne, hmin]
      simp only [Nat.zero_add, List.drop_length]
      have : (0 : Nat) < 8 := by norm_num
      simp [this, hlt, gzRead]
  · intro hge hbad
    have hne : s.isEmpty = false := by
      rcases s with _ | _
      · simp at hge
      · rfl
    have hmin : min (8 - 0) s.length = 8 := by omega
    have htake : (s.take 8).length = 8 := by
      rw [List.length_take]
      omega
    simp only [gzRead, hne, hmin]
    simp only [Nat.zero_add, hsplice (s.take 8) htake]
    have h08 : (0 : Nat) < 8 := by norm_num
    have h88 : ¬ (8 : Nat) < 8 := by norm_num
    simp [h08, h88, gzRead, hbad]
    intro hc ha
    rcases hbad with hb | hb
    · exact absurd hc hb
    · exact absurd ha hb
  · intro hge hc ha
    have hne : s.isEmpty = false := by
      rcases s with _ | _
      · simp at hge
      · rfl
    have hmin : min (8 - 0) s.length = 8 := by omega
    have htake : (s.take 8).length = 8 := by
      rw [List.length_take]
      omega
    simp only [gzRead, hne, hmin]
    simp only [Nat.zero_add, hsplice (s.take 8) htake]
    have h08 : (0 : Nat) < 8 := by norm_num
    have h88 : ¬ (8 : Nat) < 8 := by norm_num
    simp [h08, h88, gzRead, hc, ha]

/-- Witness for C3 on a concrete drained-body decoder whose source
holds one valid trailer: one byte of payload 0xAB, trailer carrying its
CRC-32 and length 1, followed by the matching-case read. -/
theorem C3_witness :
    (8 ≤ (le 4 (crc32 0 [0xAB]) ++ le 4 1).length ∧
      (finish ((le 4 (crc32 0 [0xAB]) ++ le 4 1).take 8)).1 = crc32 0 [0xAB] ∧
      (finish ((le 4 (crc32 0 [0xAB]) ++ le 4 1).take 8)).2 = ([0xAB] : List Nat).length % 2 ^ 32) ∧
    gzRead 3 64
        ⟨.finished 0 (List.replicate 8 0), le 4 (crc32 0 [0xAB]) ++ le 4 1,
          some [], [0xAB], false⟩ =
      (.ok [], ⟨.endSt, (le 4 (crc32 0 [0xAB]) ++ le 4 1).drop 8, some [], [0xAB], false⟩) :=
  ⟨⟨by decide, by decide, by decide⟩,
   (C3_trailer_stage (le 4 (crc32 0 [0xAB]) ++ le 4 1) [0xAB] (some []) 64 0).2.2.1
     (by decide) (by decide) (by decide)⟩

/-! ## Parsing an encoded member (supporting lemmas for C1 and C4) -/

/-- Reading a k-byte block that is fully present consumes it whole. -/
theorem readPad_of_append {l : List Nat} {k : Nat} (r : List Nat)
    (h : l.length = k) : readPad k (l ++ r) = l := by
  unfold readPad
  rw [List.take_left' h]
  have : k - (l ++ r).length = 0 := by
    rw [List.length_append]
    omega
  rw [this]
  simp

/-- The little-endian u16 readback of a 2-byte little-endian encoding. -/
theorem readLE16_le2 (n : Nat) : readLE16of (le 2 n) = n % 2 ^ 16 := by
  have h1 : le 2 n = [n % 256, (n >>> 8) % 256] := by simp [le]
  rw [h1]
  unfold readLE16of
  simp only [List.getD]
  have h2 : ((n >>> 8) % 256) <<< 8 = 2 ^ 8 * ((n >>> 8) % 256) := by
    rw [Nat.shiftLeft_eq]
    ring
  rw [show ([n % 256, (n >>> 8) % 256].get? 0).getD 0 = n % 256 from rfl,
    show ([n % 256, (n >>> 8) % 256].get? 1).getD 0 = (n >>> 8) % 256 from rfl]
  rw [h2, lor_disjoint 8 (n % 256) ((n >>> 8) % 256) (by omega)]
  have := loadLE_le 2 n
  simp only [le, loadLE] at this
  rw [show (8 : Nat) * 2 = 16 from rfl] at this
  omega

/-- The 32-bit little-endian readback of four bytes of a value. -/
theorem lor_le4 (x b1 b2 b3 b4 : Nat)
    (h1 : b1 = x % 256) (h2 : b2 = (x >>> 8) % 256)
    (h3 : b3 = (x >>> 16) % 256) (h4 : b4 = (x >>> 24) % 256) :
    (b1 <<< 0) ||| (b2 <<< 8) ||| (b3 <<< 16) ||| (b4 <<< 24) = x % 2 ^ 32 := by
  subst h1 h2 h3 h4
  have e8 : ((x >>> 8) % 256) <<< 8 = 2 ^ 8 * ((x >>> 8) % 256) := by
    rw [Nat.shiftLeft_eq]; ring
  have e16 : ((x >>> 16) % 256) <<< 16 = 2 ^ 16 * ((x >>> 16) % 256) := by
    rw [Nat.shiftLeft_eq]; ring
  have e24 : ((x >>> 24) % 256) <<< 24 = 2 ^ 24 * ((x >>> 24) % 256) := by
    rw [Nat.shiftLeft_eq]; ring
  rw [Nat.shiftLeft_zero, e8, lor_disjoint 8 (x % 256) _ (by omega), e16]
  rw [lor_disjoint 16 _ _ (by omega), e24]
  rw [lor_disjoint 24 _ _ (by omega)]
  have := loadLE_le 4 x
  simp only [le, loadLE, ← Nat.shiftRight_add] at this
  rw [show (8 : Nat) * 4 = 32 from rfl] at this
  omega

/-- The trailer readback of an encoded trailer: the stored CRC and
length values modulo two to the 32. -/
theorem finish_le4 (x y : Nat) :
    finish (le 4 x ++ le 4 y) = (x % 2 ^ 32, y % 2 ^ 32) := by
  have hx : le 4 x ++ le 4 y =
      [x % 256, (x >>> 8) % 256, (x >>> 16) % 256, (x >>> 24) % 256,
       y % 256, (y >>> 8) % 256, (y >>> 16) % 256, (y >>> 24) % 256] := by
    simp [le, ← Nat.shiftRight_add]
  rw [hx]
  unfold finish
  simp only [List.getD]
  refine Prod.ext ?_ ?_
  · exact lor_le4 x _ _ _ _ rfl rfl rfl rfl
  · exact lor_le4 y _ _ _ _ rfl rfl rfl rfl

/-- The zero-scan over a zero-free prefix with a terminator. -/
theorem zscan_terminated (f t : List Nat) (hf : ∀ x ∈ f, x ≠ 0) :
    zscan (f ++ 0 :: t) = (f, f ++ [0], t) := by
  have htw : (f ++ 0 :: t).takeWhile (fun b => b != 0) = f := by
    induction f with
    | nil => simp [List.takeWhile_cons]
    | cons a f ih =>
        have ha : a ≠ 0 := hf a (List.mem_cons_self ..)
        have hne : (a != 0) = true := by simpa using ha
        simp only [List.cons_append, List.takeWhile_cons, hne, if_pos]
        rw [ih (fun x hx => hf x (List.mem_cons_of_mem _ hx))]
  unfold zscan
  simp only [htw]
  have hlen : f.length < (f ++ 0 :: t).length := by
    rw [List.length_append]
    simp
  rw [if_pos hlen]
  have hdrop : (f ++ 0 :: t).drop (f.length + 1) = t := by
    rw [show f.length + 1 = (f ++ [0]).length by simp]
    rw [show f ++ 0 :: t = (f ++ [0]) ++ t by simp]
    exact List.drop_left _ _
  rw [hdrop]

/-- Inflating an encoded body recovers the payload and leaves the rest
of the source untouched. -/
theorem inflate_decode_encode (lvl : Nat) (v rest : List Nat)
    (hv : v.length < 2 ^ 64) :
    inflate_decode (deflate_encode lvl v ++ rest) = some (v, rest) := by
  unfold deflate_encode inflate_decode
  have hassoc : (le 8 v.length ++ v) ++ rest = le 8 v.length ++ (v ++ rest) := by
    simp [List.append_assoc]
  simp only [hassoc]
  have hlen : (le 8 v.length ++ (v ++ rest)).length = 8 + (v.length + rest.length) := by
    simp [le_length]
  have h8 : 8 ≤ (le 8 v.length ++ (v ++ rest)).length := by omega
  rw [if_pos h8]
  have htake : (le 8 v.length ++ (v ++ rest)).take 8 = le 8 v.length :=
    List.take_left' (le_length 8 v.length)
  rw [htake, loadLE_le]
  rw [show (8 : Nat) * 8 = 64 from rfl, Nat.mod_eq_of_lt hv]
  rw [if_pos (by omega)]
  have hdrop : (le 8 v.length ++ (v ++ rest)).drop 8 = v ++ rest :=
    List.drop_left' (le_length 8 v.length)
  rw [hdrop, List.take_left]
  have hdrop2 : (le 8 v.length ++ (v ++ rest)).drop (8 + v.length) = rest := by
    rw [← hassoc]
    exact List.drop_left' (by simp [le_length])
  rw [hdrop2]

/-- Parsing the header that into_header emitted, followed by anything,
recovers exactly the configured fields (mtime at its u32 width) and
leaves the following bytes unconsumed. The hypotheses are the
invariants of the builder configuration: the extra field fits its u16
length prefix, and filename and comment are zero-free (the CString
invariant). -/
theorem read_gz_header_part_encode (b : GzBuilder) (lvl : Nat) (rest : List Nat)
    (hx : ∀ v, b.extra = some v → v.length < 2 ^ 16)
    (hf : ∀ f, b.filename = some f → ∀ x ∈ f, x ≠ 0)
    (hc : ∀ c, b.comment = some c → ∀ x ∈ c, x ≠ 0) :
    read_gz_header_part (into_header b lvl ++ rest) =
      .ok (⟨b.extra, b.filename, b.comment, b.operating_system.getD 255,
        b.mtime % 2 ^ 32⟩, rest) := by
  obtain ⟨e, f, c, os, m⟩ := b
  rw [into_header_decomp]
  set xfl := if 9 ≤ lvl then 2 else if lvl ≤ 1 then 4 else 0 with hxfl
  set osb := (Option.getD os 255 : Nat) with hosb
  have hle4 : le 4 m = [m % 256, (m >>> 8) % 256, (m >>> 16) % 256, (m >>> 24) % 256] := by
    simp [le, ← Nat.shiftRight_add]
  rcases e with _ | v <;> rcases f with _ | fn <;> rcases c with _ | cm
  -- none, none, none
  · simp only [Option.isSome_none, Bool.false_eq_true, if_false]
    have hflg : ((0 : Nat) ||| 0 ||| 0) = 0 := by decide
    rw [hle4, hflg]
    have hform : ([0x1f, 0x8b, 8, 0] ++
          [m % 256, (m >>> 8) % 256, (m >>> 16) % 256, (m >>> 24) % 256] ++ [xfl, osb] ++
          [] ++ [] ++ [] ++ rest : List Nat) =
        ([0x1f, 0x8b, 8, 0, m % 256, (m >>> 8) % 256, (m >>> 16) % 256, (m >>> 24) % 256,
          xfl, osb] : List Nat) ++ rest := by
      simp [List.append_assoc]
    rw [hform]
    have h10 : ([0x1f, 0x8b, 8, 0, m % 256, (m >>> 8) % 256, (m >>> 16) % 256,
        (m >>> 24) % 256, xfl, osb] : List Nat).length = 10 := by simp
    unfold read_gz_header_part
    rw [readPad_of_append _ h10, List.drop_left' h10]
    simp only [List.getD_cons_zero, List.getD_cons_succ]
    rw [if_neg (by norm_num), if_neg (by norm_num)]
    have hEx : ¬ ((0 : Nat) &&& FEXTRA ≠ 0) := by decide
    have hNm : ¬ ((0 : Nat) &&& FNAME ≠ 0) := by decide
    have hCm : ¬ ((0 : Nat) &&& FCOMMENT ≠ 0) := by decide
    have hHc : ¬ ((0 : Nat) &&& FHCRC ≠ 0) := by decide
    simp [hEx, hNm, hCm, hHc]
    exact lor_le4 m _ _ _ _ rfl rfl rfl rfl
  -- none, none, some cm
  · have hcz := hc cm rfl
    simp only [Option.isSome_none, Option.isSome_some, Bool.false_eq_true, if_false, if_true]
    have hflg : ((0 : Nat) ||| 0 ||| FCOMMENT) = 16 := by decide
    rw [hle4, hflg]
    have hform : ([0x1f, 0x8b, 8, 16] ++
          [m % 256, (m >>> 8) % 256, (m >>> 16) % 256, (m >>> 24) % 256] ++ [xfl, osb] ++
          [] ++ [] ++ (cm ++ [0]) ++ rest : List Nat) =
        ([0x1f, 0x8b, 8, 16, m % 256, (m >>> 8) % 256, (m >>> 16) % 256, (m >>> 24) % 256,
          xfl, osb] : List Nat) ++ (cm ++ 0 :: rest) := by
      simp [List.append_assoc]
    rw [hform]
    have h10 : ([0x1f, 0x8b, 8, 16, m % 256, (m >>> 8) % 256, (m >>> 16) % 256,
        (m >>> 24) % 256, xfl, osb] : List Nat).length = 10 := by simp
    unfold read_gz_header_part
    rw [readPad_of_append _ h10, List.drop_left' h10]
    simp only [List.getD_cons_zero, List.getD_cons_succ]
    rw [if_neg (by norm_num), if_neg (by norm_num)]
    have hEx : ¬ ((16 : Nat) &&& FEXTRA ≠ 0) := by decide
    have hNm : ¬ ((16 : Nat) &&& FNAME ≠ 0) := by decide
    have hCm : (16 : Nat) &&& FCOMMENT ≠ 0 := by decide
    have hHc : ¬ ((16 : Nat) &&& FHCRC ≠ 0) := by decide
    have e7 : zscan (cm ++ 0 :: rest) = (cm, cm ++ [0], rest) :=
      zscan_terminated cm _ hcz
    simp [hEx, hNm, hCm, hHc, e7]
    exact lor_le4 m _ _ _ _ rfl rfl rfl rfl
  -- none, some fn, none
  · have hfz := hf fn rfl
    simp only [Option.isSome_none, Option.isSome_some, Bool.false_eq_true, if_false, if_true]
    have hflg : ((0 : Nat) ||| FNAME ||| 0) = 8 := by decide
    rw [hle4, hflg]
    have hform : ([0x1f, 0x8b, 8, 8] ++
          [m % 256, (m >>> 8) % 256, (m >>> 16) % 256, (m >>> 24) % 256] ++ [xfl, osb] ++
          [] ++ (fn ++ [0]) ++ [] ++ rest : List Nat) =
        ([0x1f, 0x8b, 8, 8, m % 256, (m >>> 8) % 256, (m >>> 16) % 256, (m >>> 24) % 256,
          xfl, osb] : List Nat) ++ (fn ++ 0 :: rest) := by
      simp [List.append_assoc]
    rw [hform]
    have h10 : ([0x1f, 0x8b, 8, 8, m % 256, (m >>> 8) % 256, (m >>> 16) % 256,
        (m >>> 24) % 256, xfl, osb] : List Nat).length = 10 := by simp
    unfold read_gz_header_part
    rw [readPad_of_append _ h10, List.drop_left' h10]
    simp only [List.getD_cons_zero, List.getD_cons_succ]
    rw [if_neg (by norm_num), if_neg (by norm_num)]
    have hEx : ¬ ((8 : Nat) &&& FEXTRA ≠ 0) := by decide
    have hNm : (8 : Nat) &&& FNAME ≠ 0 := by decide
    have hCm : ¬ ((8 : Nat) &&& FCOMMENT ≠ 0) := by decide
    have hHc : ¬ ((8 : Nat) &&& FHCRC ≠ 0) := by decide
    have e6 : zscan (fn ++ 0 :: rest) = (fn, fn ++ [0], rest) :=
      zscan_terminated fn _ hfz
    simp [hEx, hNm, hCm, hHc, e6]
    exact lor_le4 m _ _ _ _ rfl rfl rfl rfl
  -- none, some fn, some cm
  · have hfz := hf fn rfl
    have hcz := hc cm rfl
    simp only [Option.isSome_none, Option.isSome_some, Bool.false_eq_true, if_false, if_true]
    have hflg : ((0 : Nat) ||| FNAME ||| FCOMMENT) = 24 := by decide
    rw [hle4, hflg]
    have hform : ([0x1f, 0x8b, 8, 24] ++
          [m % 256, (m >>> 8) % 256, (m >>> 16) % 256, (m >>> 24) % 256] ++ [xfl, osb] ++
          [] ++ (fn ++ [0]) ++ (cm ++ [0]) ++ rest : List Nat) =
        ([0x1f, 0x8b, 8, 24, m % 256, (m >>> 8) % 256, (m >>> 16) % 256, (m >>> 24) % 256,
          xfl, osb] : List Nat) ++ (fn ++ 0 :: (cm ++ 0 :: rest)) := by
      simp [List.append_assoc]
    rw [hform]
    have h10 : ([0x1f, 0x8b, 8, 24, m % 256, (m >>> 8) % 256, (m >>> 16) % 256,
        (m >>> 24) % 256, xfl, osb] : List Nat).length = 10 := by simp
    unfold read_gz_header_part
    rw [readPad_of_append _ h10, List.drop_left' h10]
    simp only [List.getD_cons_zero, List.getD_cons_succ]
    rw [if_neg (by norm_num), if_neg (by norm_num)]
    have hEx : ¬ ((24 : Nat) &&& FEXTRA ≠ 0) := by decide
    have hNm : (24 : Nat) &&& FNAME ≠ 0 := by decide
    have hCm : (24 : Nat) &&& FCOMMENT ≠ 0 := by decide
    have hHc : ¬ ((24 : Nat) &&& FHCRC ≠ 0) := by decide
    have e6 : zscan (fn ++ 0 :: (cm ++ 0 :: rest)) = (fn, fn ++ [0], cm ++ 0 :: rest) :=
      zscan_terminated fn _ hfz
    have e7 : zscan (cm ++ 0 :: rest) = (cm, cm ++ [0], rest) :=
      zscan_terminated cm _ hcz
    simp [hEx, hNm, hCm, hHc, e6, e7]
    exact lor_le4 m _ _ _ _ rfl rfl rfl rfl
  -- some v, none, none
  · have hv16 := hx v rfl
    simp only [Option.isSome_none, Option.isSome_some, Bool.false_eq_true, if_false, if_true]
    have hflg : ((FEXTRA : Nat) ||| 0 ||| 0) = 4 := by decide
    rw [hle4, hflg]
    have hform : ([0x1f, 0x8b, 8, 4] ++
          [m % 256, (m >>> 8) % 256, (m >>> 16) % 256, (m >>> 24) % 256] ++ [xfl, osb] ++
          (le 2 v.length ++ v) ++ [] ++ [] ++ rest : List Nat) =
        ([0x1f, 0x8b, 8, 4, m % 256, (m >>> 8) % 256, (m >>> 16) % 256, (m >>> 24) % 256,
          xfl, osb] : List Nat) ++ (le 2 v.length ++ (v ++ rest)) := by
      simp [List.append_assoc]
    rw [hform]
    have h10 : ([0x1f, 0x8b, 8, 4, m % 256, (m >>> 8) % 256, (m >>> 16) % 256,
        (m >>> 24) % 256, xfl, osb] : List Nat).length = 10 := by simp
    unfold read_gz_header_part
    rw [readPad_of_append _ h10, List.drop_left' h10]
    simp only [List.getD_cons_zero, List.getD_cons_succ]
    rw [if_neg (by norm_num), if_neg (by norm_num)]
    have hEx : (4 : Nat) &&& FEXTRA ≠ 0 := by decide
    have hNm : ¬ ((4 : Nat) &&& FNAME ≠ 0) := by decide
    have hCm : ¬ ((4 : Nat) &&& FCOMMENT ≠ 0) := by decide
    have hHc : ¬ ((4 : Nat) &&& FHCRC ≠ 0) := by decide
    have e1 : readPad 2 (le 2 v.length ++ (v ++ rest)) = le 2 v.length :=
      readPad_of_append _ (le_length 2 v.length)
    have e2 : readLE16of (le 2 v.length) = v.length := by
      rw [readLE16_le2]; exact Nat.mod_eq_of_lt hv16
    have e3 : (le 2 v.length ++ (v ++ rest)).drop 2 = v ++ rest :=
      List.drop_left' (le_length 2 v.length)
    have e4 : readPad v.length (v ++ rest) = v := readPad_of_append _ rfl
    have e5 : (v ++ rest).drop v.length = rest := List.drop_left _ _
    simp [hEx, hNm, hCm, hHc, e1, e2, e3, e4, e5]
    exact lor_le4 m _ _ _ _ rfl rfl rfl rfl
  -- some v, none, some cm
  · have hv16 := hx v rfl
    have hcz := hc cm rfl
    simp only [Option.isSome_none, Option.isSome_some, Bool.false_eq_true, if_false, if_true]
    have hflg : ((FEXTRA : Nat) ||| 0 ||| FCOMMENT) = 20 := by decide
    rw [hle4, hflg]
    have hform : ([0x1f, 0x8b, 8, 20] ++
          [m % 256, (m >>> 8) % 256, (m >>> 16) % 256, (m >>> 24) % 256] ++ [xfl, osb] ++
          (le 2 v.length ++ v) ++ [] ++ (cm ++ [0]) ++ rest : List Nat) =
        ([0x1f, 0x8b, 8, 20, m % 256, (m >>> 8) % 256, (m >>> 16) % 256, (m >>> 24) % 256,
          xfl, osb] : List Nat) ++ (le 2 v.length ++ (v ++ (cm ++ 0 :: rest))) := by
      simp [List.append_assoc]
    rw [hform]
    have h10 : ([0x1f, 0x8b, 8, 20, m % 256, (m >>> 8) % 256, (m >>> 16) % 256,
        (m >>> 24) % 256, xfl, osb] : List Nat).length = 10 := by simp
    unfold read_gz_header_part
    rw [readPad_of_append _ h10, List.drop_left' h10]
    simp only [List.getD_cons_zero, List.getD_cons_succ]
    rw [if_neg (by norm_num), if_neg (by norm_num)]
    have hEx : (20 : Nat) &&& FEXTRA ≠ 0 := by decide
    have hNm : ¬ ((20 : Nat) &&& FNAME ≠ 0) := by decide
    have hCm : (20 : Nat) &&& FCOMMENT ≠ 0 := by decide
    have hHc : ¬ ((20 : Nat) &&& FHCRC ≠ 0) := by decide
    have e1 : readPad 2 (le 2 v.length ++ (v ++ (cm ++ 0 :: rest))) = le 2 v.length :=
      readPad_of_append _ (le_length 2 v.length)
    have e2 : readLE16of (le 2 v.length) = v.length := by
      rw [readLE16_le2]; exact Nat.mod_eq_of_lt hv16
    have e3 : (le 2 v.length ++ (v ++ (cm ++ 0 :: rest))).drop 2 = v ++ (cm ++ 0 :: rest) :=
      List.drop_left' (le_length 2 v.length)
    have e4 : readPad v.length (v ++ (cm ++ 0 :: rest)) = v := readPad_of_append _ rfl
    have e5 : (v ++ (cm ++ 0 :: rest)).drop v.length = cm ++ 0 :: rest := List.drop_left _ _
    have e7 : zscan (cm ++ 0 :: rest) = (cm, cm ++ [0], rest) :=
      zscan_terminated cm _ hcz
    simp [hEx, hNm, hCm, hHc, e1, e2, e3, e4, e5, e7]
    exact lor_le4 m _ _ _ _ rfl rfl rfl rfl
  -- some v, some fn, none
  · have hv16 := hx v rfl
    have hfz := hf fn rfl
    simp only [Option.isSome_none, Option.isSome_some, Bool.false_eq_true, if_false, if_true]
    have hflg : ((FEXTRA : Nat) ||| FNAME ||| 0) = 12 := by decide
    rw [hle4, hflg]
    have hform : ([0x1f, 0x8b, 8, 12] ++
          [m % 256, (m >>> 8) % 256, (m >>> 16) % 256, (m >>> 24) % 256] ++ [xfl, osb] ++
          (le 2 v.length ++ v) ++ (fn ++ [0]) ++ [] ++ rest : List Nat) =
        ([0x1f, 0x8b, 8, 12, m % 256, (m >>> 8) % 256, (m >>> 16) % 256, (m >>> 24) % 256,
          xfl, osb] : List Nat) ++ (le 2 v.length ++ (v ++ (fn ++ 0 :: rest))) := by
      simp [List.append_assoc]
    rw [hform]
    have h10 : ([0x1f, 0x8b, 8, 12, m % 256, (m >>> 8) % 256, (m >>> 16) % 256,
        (m >>> 24) % 256, xfl, osb] : List Nat).length = 10 := by simp
    unfold read_gz_header_part
    rw [readPad_of_append _ h10, List.drop_left' h10]
    simp only [List.getD_cons_zero, List.getD_cons_succ]
    rw [if_neg (by norm_num), if_neg (by norm_num)]
    have hEx : (12 : Nat) &&& FEXTRA ≠ 0 := by decide
    have hNm : (12 : Nat) &&& FNAME ≠ 0 := by decide
    have hCm : ¬ ((12 : Nat) &&& FCOMMENT ≠ 0) := by decide
    have hHc : ¬ ((12 : Nat) &&& FHCRC ≠ 0) := by decide
    have e1 : readPad 2 (le 2 v.length ++ (v ++ (fn ++ 0 :: rest))) = le 2 v.length :=
      readPad_of_append _ (le_length 2 v.length)
    have e2 : readLE16of (le 2 v.length) = v.length := by
      rw [readLE16_le2]; exact Nat.mod_eq_of_lt hv16
    have e3 : (le 2 v.length ++ (v ++ (fn ++ 0 :: rest))).drop 2 = v ++ (fn ++ 0 :: rest) :=
      List.drop_left' (le_length 2 v.length)
    have e4 : readPad v.length (v ++ (fn ++ 0 :: rest)) = v := readPad_of_append _ rfl
    have e5 : (v ++ (fn ++ 0 :: rest)).drop v.length = fn ++ 0 :: rest := List.drop_left _ _
    have e6 : zscan (fn ++ 0 :: rest) = (fn, fn ++ [0], rest) :=
      zscan_terminated fn _ hfz
    simp [hEx, hNm, hCm, hHc, e1, e2, e3, e4, e5, e6]
    exact lor_le4 m _ _ _ _ rfl rfl rfl rfl
  -- some v, some fn, some cm
  · have hv16 := hx v rfl
    have hfz := hf fn rfl
    have hcz := hc cm rfl
    simp only [Option.isSome_some, if_true]
    have hflg : ((FEXTRA : Nat) ||| FNAME ||| FCOMMENT) = 28 := by decide
    rw [hle4, hflg]
    have hform : ([0x1f, 0x8b, 8, 28] ++
          [m % 256, (m >>> 8) % 256, (m >>> 16) % 256, (m >>> 24) % 256] ++ [xfl, osb] ++
          (le 2 v.length ++ v) ++ (fn ++ [0]) ++ (cm ++ [0]) ++ rest : List Nat) =
        ([0x1f, 0x8b, 8, 28, m % 256, (m >>> 8) % 256, (m >>> 16) % 256, (m >>> 24) % 256,
          xfl, osb] : List Nat) ++ (le 2 v.length ++ (v ++ (fn ++ 0 :: (cm ++ 0 :: rest)))) := by
      simp [List.append_assoc]
    rw [hform]
    have h10 : ([0x1f, 0x8b, 8, 28, m % 256, (m >>> 8) % 256, (m >>> 16) % 256,
        (m >>> 24) % 256, xfl, osb] : List Nat).length = 10 := by simp
    unfold read_gz_header_part
    rw [readPad_of_append _ h10, List.drop_left' h10]
    simp only [List.getD_cons_zero, List.getD_cons_succ]
    rw [if_neg (by norm_num), if_neg (by norm_num)]
    have hEx : (28 : Nat) &&& FEXTRA ≠ 0 := by decide
    have hNm : (28 : Nat) &&& FNAME ≠ 0 := by decide
    have hCm : (28 : Nat) &&& FCOMMENT ≠ 0 := by decide
    have hHc : ¬ ((28 : Nat) &&& FHCRC ≠ 0) := by decide
    have e1 : readPad 2 (le 2 v.length ++ (v ++ (fn ++ 0 :: (cm ++ 0 :: rest)))) = le 2 v.length :=
      readPad_of_append _ (le_length 2 v.length)
    have e2 : readLE16of (le 2 v.length) = v.length := by
      rw [readLE16_le2]; exact Nat.mod_eq_of_lt hv16
    have e3 : (le 2 v.length ++ (v ++ (fn ++ 0 :: (cm ++ 0 :: rest)))).drop 2 =
        v ++ (fn ++ 0 :: (cm ++ 0 :: rest)) := List.drop_left' (le_length 2 v.length)
    have e4 : readPad v.length (v ++ (fn ++ 0 :: (cm ++ 0 :: rest))) = v :=
      readPad_of_append _ rfl
    have e5 : (v ++ (fn ++ 0 :: (cm ++ 0 :: rest))).drop v.length =
        fn ++ 0 :: (cm ++ 0 :: rest) := List.drop_left _ _
    have e6 : zscan (fn ++ 0 :: (cm ++ 0 :: rest)) = (fn, fn ++ [0], cm ++ 0 :: rest) :=
      zscan_terminated fn _ hfz
    have e7 : zscan (cm ++ 0 :: rest) = (cm, cm ++ [0], rest) :=
      zscan_terminated cm _ hcz
    simp [hEx, hNm, hCm, hHc, e1, e2, e3, e4, e5, e6, e7]
    exact lor_le4 m _ _ _ _ rfl rfl rfl rfl

/-- Decoding one member that gz_encode emitted recovers the header
fields and the payload and leaves the following bytes unconsumed. -/
theorem gz_decode_member_encode (b : GzBuilder) (lvl : Nat) (v rest : List Nat)
    (hx : ∀ w, b.extra = some w → w.length < 2 ^ 16)
    (hf : ∀ f, b.filename = some f → ∀ x ∈ f, x ≠ 0)
    (hc : ∀ c, b.comment = some c → ∀ x ∈ c, x ≠ 0)
    (hv : v.length < 2 ^ 64) (hbv : IsBytes v) :
    gz_decode_member (gz_encode b lvl v ++ rest) =
      .ok (⟨b.extra, b.filename, b.comment, b.operating_system.getD 255,
        b.mtime % 2 ^ 32⟩, v, rest) := by
  have hform : gz_encode b lvl v ++ rest =
      into_header b lvl ++ (deflate_encode lvl v ++
        (le 4 (crc32 0 v) ++ (le 4 (v.length % 2 ^ 32) ++ rest))) := by
    unfold gz_encode
    simp [List.append_assoc]
  have hparse := read_gz_header_part_encode b lvl
    (deflate_encode lvl v ++ (le 4 (crc32 0 v) ++ (le 4 (v.length % 2 ^ 32) ++ rest)))
    hx hf hc
  have hregroup : le 4 (crc32 0 v) ++ (le 4 (v.length % 2 ^ 32) ++ rest) =
      (le 4 (crc32 0 v) ++ le 4 (v.length % 2 ^ 32)) ++ rest := by
    simp [List.append_assoc]
  have hlen2 : (le 4 (crc32 0 v) ++ le 4 (v.length % 2 ^ 32)).length = 8 := by
    simp [le_length]
  have htake : (le 4 (crc32 0 v) ++ (le 4 (v.length % 2 ^ 32) ++ rest)).take 8 =
      le 4 (crc32 0 v) ++ le 4 (v.length % 2 ^ 32) := by
    rw [hregroup]
    exact List.take_left' hlen2
  have hdrop : (le 4 (crc32 0 v) ++ (le 4 (v.length % 2 ^ 32) ++ rest)).drop 8 = rest := by
    rw [hregroup]
    exact List.drop_left' hlen2
  have hfin : finish (le 4 (crc32 0 v) ++ le 4 (v.length % 2 ^ 32)) =
      (crc32 0 v, v.length % 2 ^ 32) := by
    rw [finish_le4]
    refine Prod.ext ?_ ?_
    · exact Nat.mod_eq_of_lt (crc32_lt 0 v hbv (by norm_num))
    · simp only []
      omega
  unfold gz_decode_member
  rw [hform]
  simp only [hparse]
  rw [inflate_decode_encode lvl v
    (le 4 (crc32 0 v) ++ (le 4 (v.length % 2 ^ 32) ++ rest)) hv]
  simp only [List.length_append, le_length]
  rw [if_neg (by omega)]
  rw [htake, hfin]
  rw [if_neg (by simp)]
  rw [hdrop]

/-! ## Claim C1: round-trip for the three formats -/

/-- C1: for every byte sequence and every compression level
(in particular none = 0, fast = 1, default = 6, best = 9),
decompressing what the encoder of each format produced recovers the
byte sequence exactly: the raw DEFLATE body codec, the zlib framing,
and the gzip framing driven through the full header, body and verified
trailer pipeline. The length bound reflects the 8-byte length of the
modelled body framing; byte-ness feeds the CRC width argument of the
gzip trailer comparison. -/
theorem C1_roundtrip (lvl : Nat) (v : List Nat)
    (hv : v.length < 2 ^ 64) (hbv : IsBytes v) :
    inflate_decode (deflate_encode lvl v) = some (v, []) ∧
    zlib_decompress (zlib_compress lvl v) = some (v, []) ∧
    gz_decode (gz_encode GzBuilder.new lvl v) = .ok v := by
  refine ⟨?_, ?_, ?_⟩
  · have h := inflate_decode_encode lvl v [] hv
    simpa using h
  · unfold zlib_compress zlib_decompress
    simp only [List.cons_append, List.nil_append]
    rw [if_pos (by decide)]
    rw [inflate_decode_encode lvl v (le 4 (adler32 v)) hv]
    have hlen : (le 4 (adler32 v)).length = 4 := le_length 4 (adler32 v)
    have htake : (le 4 (adler32 v)).take 4 = le 4 (adler32 v) :=
      List.take_of_length_le (by omega)
    have hdrop : (le 4 (adler32 v)).drop 4 = [] :=
      List.drop_eq_nil_of_le (by omega)
    show (if 4 ≤ (le 4 (adler32 v)).length ∧ List.take 4 (le 4 (adler32 v)) = le 4 (adler32 v)
      then some (v, List.drop 4 (le 4 (adler32 v))) else none) = some (v, [])
    rw [if_pos ⟨by omega, htake⟩, hdrop]
  · unfold gz_decode
    have h := gz_decode_member_encode GzBuilder.new lvl v []
      (by intro w hw; simp [GzBuilder.new] at hw)
      (by intro f hf; simp [GzBuilder.new] at hf)
      (by intro c hc; simp [GzBuilder.new] at hc)
      hv hbv
    rw [List.append_nil] at h
    rw [h]

/-- Witness for C1 at the default level on the three-byte payload
1 2 3. -/
theorem C1_witness :
    (([1, 2, 3] : List Nat).length < 2 ^ 64 ∧ IsBytes [1, 2, 3]) ∧
    (inflate_decode (deflate_encode 6 [1, 2, 3]) = some ([1, 2, 3], []) ∧
      zlib_decompress (zlib_compress 6 [1, 2, 3]) = some ([1, 2, 3], []) ∧
      gz_decode (gz_encode GzBuilder.new 6 [1, 2, 3]) = .ok [1, 2, 3]) :=
  ⟨⟨by decide, by decide⟩, C1_roundtrip 6 [1, 2, 3] (by decide) (by decide)⟩

/-! ## Claim C4: multi-member versus single-member decoding -/

/-- The header always spans at least its ten fixed bytes. -/
theorem into_header_length_pos (b : GzBuilder) (lvl : Nat) :
    0 < (into_header b lvl).length := by
  rw [into_header_decomp]
  simp

/-- A final encoded member decodes to its payload under any positive
fuel. -/
theorem gz_decode_multi_go_last (fuel : Nat) (hfuel : 0 < fuel)
    (b : GzBuilder) (lvl : Nat) (v : List Nat)
    (hx : ∀ w, b.extra = some w → w.length < 2 ^ 16)
    (hf : ∀ f, b.filename = some f → ∀ x ∈ f, x ≠ 0)
    (hc : ∀ c, b.comment = some c → ∀ x ∈ c, x ≠ 0)
    (hv : v.length < 2 ^ 64) (hbv : IsBytes v) :
    gz_decode_multi_go fuel (gz_encode b lvl v) = .ok v := by
  obtain ⟨f, rfl⟩ : ∃ f, fuel = f + 1 := ⟨fuel - 1, by omega⟩
  have h := gz_decode_member_encode b lvl v [] hx hf hc hv hbv
  rw [List.append_nil] at h
  simp only [gz_decode_multi_go]
  rw [h]
  simp

/-- C4: concatenating two members produced by the encoder (any builder
configurations and levels) and feeding the result to the multi-member
decoder yields exactly the first payload followed by the second as one
byte stream, while the single-member decoder on the same input emits
only the first payload; afterwards a decoder in the End state answers
every further read with zero bytes. -/
theorem C4_multi_vs_single (b1 b2 : GzBuilder) (l1 l2 : Nat) (p1 p2 : List Nat)
    (hx1 : ∀ w, b1.extra = some w → w.length < 2 ^ 16)
    (hf1 : ∀ f, b1.filename = some f → ∀ x ∈ f, x ≠ 0)
    (hc1 : ∀ c, b1.comment = some c → ∀ x ∈ c, x ≠ 0)
    (hx2 : ∀ w, b2.extra = some w → w.length < 2 ^ 16)
    (hf2 : ∀ f, b2.filename = some f → ∀ x ∈ f, x ≠ 0)
    (hc2 : ∀ c, b2.comment = some c → ∀ x ∈ c, x ≠ 0)
    (hv1 : p1.length < 2 ^ 64) (hb1 : IsBytes p1)
    (hv2 : p2.length < 2 ^ 64) (hb2 : IsBytes p2) :
    gz_decode_multi (gz_encode b1 l1 p1 ++ gz_encode b2 l2 p2) = .ok (p1 ++ p2) ∧
    gz_decode (gz_encode b1 l1 p1 ++ gz_encode b2 l2 p2) = .ok p1 ∧
    (∀ (d : GzDecoder) (fuel intoLen : Nat), d.state = .endSt →
      gzRead fuel intoLen d = (.ok [], d)) := by
  have hm1 := gz_decode_member_encode b1 l1 p1 (gz_encode b2 l2 p2) hx1 hf1 hc1 hv1 hb1
  have hm2pos : 0 < (gz_encode b2 l2 p2).length := by
    unfold gz_encode
    simp only [List.length_append]
    have := into_header_length_pos b2 l2
    omega
  have hne : (gz_encode b2 l2 p2).isEmpty = false := by
    rcases h : gz_encode b2 l2 p2 with _ | _
    · rw [h] at hm2pos
      simp at hm2pos
    · rfl
  refine ⟨?_, ?_, ?_⟩
  · unfold gz_decode_multi
    simp only [gz_decode_multi_go]
    rw [hm1]
    simp only [hne, Bool.false_eq_true, if_false]
    rw [gz_decode_multi_go_last ((gz_encode b1 l1 p1 ++ gz_encode b2 l2 p2).length)
      (by simp only [List.length_append]; omega) b2 l2 p2 hx2 hf2 hc2 hv2 hb2]
  · unfold gz_decode
    rw [hm1]
  · intro d fuel intoLen hend
    obtain ⟨st, src, pend, hashed, multi⟩ := d
    simp only at hend
    subst hend
    rcases fuel with _ | f
    · rfl
    · simp [gzRead]

/-- Witness for C4 on the S4 scenario: payloads "abc" and "def" with
default builders; the multi-member decoder emits "abcdef", the single
decoder only "abc". -/
theorem C4_witness :
    ((∀ w, GzBuilder.new.extra = some w → w.length < 2 ^ 16) ∧
      ([97, 98, 99] : List Nat).length < 2 ^ 64 ∧ IsBytes [97, 98, 99] ∧
      ([100, 101, 102] : List Nat).length < 2 ^ 64 ∧ IsBytes [100, 101, 102]) ∧
    (gz_decode_multi (gz_encode GzBuilder.new 6 [97, 98, 99] ++
        gz_encode GzBuilder.new 6 [100, 101, 102]) = .ok ([97, 98, 99] ++ [100, 101, 102]) ∧
      gz_decode (gz_encode GzBuilder.new 6 [97, 98, 99] ++
        gz_encode GzBuilder.new 6 [100, 101, 102]) = .ok [97, 98, 99] ∧
      (∀ (d : GzDecoder) (fuel intoLen : Nat), d.state = .endSt →
        gzRead fuel intoLen d = (.ok [], d))) := by
  have hnone : ∀ {T : Type} (w : T), (none : Option T) = some w → False := by
    intro T w h
    cases h
  refine ⟨⟨?_, by decide, by decide, by decide, by decide⟩, ?_⟩
  · intro w hw
    exact absurd hw (by simp [GzBuilder.new])
  · exact C4_multi_vs_single GzBuilder.new GzBuilder.new 6 6 [97, 98, 99] [100, 101, 102]
      (fun w hw => absurd hw (by simp [GzBuilder.new]))
      (fun f hf => absurd hf (by simp [GzBuilder.new]))
      (fun c hc => absurd hc (by simp [GzBuilder.new]))
      (fun w hw => absurd hw (by simp [GzBuilder.new]))
      (fun f hf => absurd hf (by simp [GzBuilder.new]))
      (fun c hc => absurd hc (by simp [GzBuilder.new]))
      (by decide) (by decide) (by decide) (by decide)

/-! ## Claim C2: carryless-multiply folding equals the portable CRC

The register semantics: a value x occupying the next w bits of the
stream, followed by the remaining bytes, reduces to the CRC by feeding
the whole load through the bit engine. The folding constants K1..K5
are powers of x in the CRC ring, which the orbit lemmas below express
as coincidences of shifted registers. -/

theorem loadLE_append (u v : List Nat) :
    loadLE (u ++ v) = loadLE u + 2 ^ (8 * u.length) * loadLE v := by
  induction u with
  | nil => simp [loadLE]
  | cons b u ih =>
      rw [List.cons_append]
      rw [show loadLE (b :: (u ++ v)) = b + 256 * loadLE (u ++ v) from rfl]
      rw [ih]
      rw [show loadLE (b :: u) = b + 256 * loadLE u from rfl]
      rw [List.length_cons, show 8 * (u.length + 1) = 8 * u.length + 8 by ring, pow_add]
      ring

theorem pow_mul_xor (k a b : Nat) : 2 ^ k * (a ^^^ b) = 2 ^ k * a ^^^ 2 ^ k * b := by
  have h : ∀ x : Nat, 2 ^ k * x = x <<< k := by
    intro x
    rw [Nat.shiftLeft_eq, Nat.mul_comm]
  rw [h, h, h]
  apply Nat.eq_of_testBit_eq
  intro i
  simp [Nat.testBit_shiftLeft, Nat.testBit_xor, Bool.and_xor_distrib_left]

theorem crcShift_absorb (k m w : Nat) : crcShift (k + m) (2 ^ k * w) = crcShift m w := by
  rw [crcShift_add, crcShift_pow_mul]

theorem xor_split (k y : Nat) : y = y % 2 ^ k ^^^ 2 ^ k * (y >>> k) := by
  rw [xor_disjoint k (y % 2 ^ k) (y >>> k) (Nat.mod_lt _ (by positivity))]
  rw [Nat.shiftRight_eq_div_pow]
  have h := Nat.div_add_mod y (2 ^ k)
  omega

theorem isBytes_take (l : List Nat) (k : Nat) (h : IsBytes l) : IsBytes (l.take k) :=
  fun x hx => h x (List.mem_of_mem_take hx)

theorem isBytes_drop (l : List Nat) (k : Nat) (h : IsBytes l) : IsBytes (l.drop k) :=
  fun x hx => h x (List.mem_of_mem_drop hx)

theorem loadLE_take_lt (l : List Nat) (hb : IsBytes l) (h : 16 ≤ l.length) :
    loadLE (l.take 16) < 2 ^ 128 := by
  have hbb : IsBytes (l.take 16) := isBytes_take l 16 hb
  have hll : (l.take 16).length = 16 := by
    rw [List.length_take]
    omega
  have hlt := loadLE_lt _ hbb
  rw [hll] at hlt
  norm_num at hlt
  exact hlt

theorem loadLE_take_drop (l : List Nat) (hb : IsBytes l) (h : 16 ≤ l.length) :
    loadLE l = loadLE (l.take 16) ^^^ 2 ^ 128 * loadLE (l.drop 16) := by
  conv_lhs => rw [show l = l.take 16 ++ l.drop 16 from (List.take_append_drop 16 l).symm]
  rw [loadLE_append, show (l.take 16).length = 16 from by rw [List.length_take]; omega]
  rw [show (2:Nat) ^ (8 * 16) = 2 ^ 128 from by norm_num]
  rw [xor_disjoint 128 (loadLE (l.take 16)) (loadLE (l.drop 16)) (loadLE_take_lt l hb h)]

theorem lo64_lt (a : Nat) : lo64 a < 2 ^ 64 := by
  unfold lo64
  exact Nat.mod_lt _ (by positivity)

theorem hi64_lt (a : Nat) : hi64 a < 2 ^ 64 := by
  unfold hi64
  exact Nat.mod_lt _ (by positivity)

theorem shiftRight64_lt (x : Nat) (hx : x < 2 ^ 128) : x >>> 64 < 2 ^ 64 := by
  rw [Nat.shiftRight_eq_div_pow]
  exact Nat.div_lt_of_lt_mul (by rw [show (2:Nat) ^ 64 * 2 ^ 64 = 2 ^ 128 by norm_num]; exact hx)

theorem hi64_eq (x : Nat) (hx : x < 2 ^ 128) : hi64 x = x >>> 64 := by
  unfold hi64
  exact Nat.mod_eq_of_lt (shiftRight64_lt x hx)

theorem clmulBits_zero_left (f K : Nat) : clmulBits f 0 K = 0 := by
  induction f with
  | zero => rfl
  | succ f ih => simp [clmulBits, ih]

theorem clmulBits_xor_left (f : Nat) : ∀ a b K : Nat,
    clmulBits f (a ^^^ b) K = clmulBits f a K ^^^ clmulBits f b K := by
  induction f with
  | zero => intro a b K; simp [clmulBits]
  | succ f ih =>
      intro a b K
      have hmod : (a ^^^ b) % 2 = a % 2 ^^^ b % 2 := by
        have h := mod_two_pow_xor a b 1
        simpa using h
      have hdiv : (a ^^^ b) / 2 = a / 2 ^^^ b / 2 := by
        have h := shiftRight_distrib_xor a b 1
        simpa [Nat.shiftRight_one] using h
      have h2 : 2 * (clmulBits f (a / 2) K ^^^ clmulBits f (b / 2) K)
          = 2 * clmulBits f (a / 2) K ^^^ 2 * clmulBits f (b / 2) K := by
        have h := pow_mul_xor 1 (clmulBits f (a / 2) K) (clmulBits f (b / 2) K)
        simpa using h
      simp only [clmulBits, hmod, hdiv, ih, h2]
      rcases Nat.mod_two_eq_zero_or_one a with ha | ha <;>
        rcases Nat.mod_two_eq_zero_or_one b with hb | hb <;>
          simp [ha, hb, Nat.xor_assoc, Nat.xor_comm, xor_left_comm, Nat.xor_cancel_left]

theorem clmulBits_pow2 (f : Nat) : ∀ i K : Nat, i < f → clmulBits f (2 ^ i) K = 2 ^ i * K := by
  induction f with
  | zero => intro i K h; omega
  | succ f ih =>
      intro i K h
      cases i with
      | zero => simp [clmulBits, clmulBits_zero_left]
      | succ i =>
          have hm : (2:Nat) ^ (i + 1) % 2 = 0 := by
            have h2 : (2:Nat) ^ (i + 1) = 2 * 2 ^ i := by ring
            omega
          have hd : (2:Nat) ^ (i + 1) / 2 = 2 ^ i := by
            have h2 : (2:Nat) ^ (i + 1) = 2 * 2 ^ i := by ring
            omega
          simp only [clmulBits, hm, hd]
          rw [if_neg (by norm_num), ih i K (by omega), Nat.zero_xor]
          ring

theorem clmulBits_lt_mul (f : Nat) : ∀ m n a K : Nat, a < 2 ^ (m + 1) → K < 2 ^ n →
    clmulBits f a K < 2 ^ (m + n) := by
  induction f with
  | zero =>
      intro m n a K _ _
      simp only [clmulBits]
      positivity
  | succ f ih =>
      intro m n a K ha hK
      simp only [clmulBits]
      have hbit : (if a % 2 = 1 then K else 0) < 2 ^ (m + n) := by
        split
        · exact lt_of_lt_of_le hK (Nat.pow_le_pow_right (by norm_num) (by omega))
        · positivity
      have hrec : 2 * clmulBits f (a / 2) K < 2 ^ (m + n) := by
        cases m with
        | zero =>
            have ha0 : a / 2 = 0 := by omega
            rw [ha0, clmulBits_zero_left, Nat.mul_zero]
            positivity
        | succ m =>
            have ha2 : a / 2 < 2 ^ (m + 1) := by
              have hp : (2:Nat) ^ (m + 1 + 1) = 2 * 2 ^ (m + 1) := by ring
              omega
            have h := ih m n (a / 2) K ha2 hK
            have hp : (2:Nat) ^ (m + 1 + n) = 2 * 2 ^ (m + n) := by ring
            omega
      exact Nat.xor_lt_two_pow hbit hrec

theorem clmul_xor_left (a b K : Nat) : clmul (a ^^^ b) K = clmul a K ^^^ clmul b K := by
  unfold clmul
  exact clmulBits_xor_left 64 a b K

theorem clmul_zero_left (K : Nat) : clmul 0 K = 0 := clmulBits_zero_left 64 K

theorem clmul_lt64 (a K n : Nat) (ha : a < 2 ^ 64) (hK : K < 2 ^ n) :
    clmul a K < 2 ^ (63 + n) := by
  refine clmulBits_lt_mul 64 63 n a K ?_ hK
  have h : (2:Nat) ^ (63 + 1) = 2 ^ 64 := by norm_num
  omega

theorem clmul_lt32 (a K n : Nat) (ha : a < 2 ^ 32) (hK : K < 2 ^ n) :
    clmul a K < 2 ^ (31 + n) := by
  refine clmulBits_lt_mul 64 31 n a K ?_ hK
  have h : (2:Nat) ^ (31 + 1) = 2 ^ 32 := by norm_num
  omega

theorem linear_agree (F G : Nat → Nat)
    (hF : ∀ a b, F (a ^^^ b) = F a ^^^ F b)
    (hG : ∀ a b, G (a ^^^ b) = G a ^^^ G b)
    (hF0 : F 0 = 0) (hG0 : G 0 = 0) :
    ∀ w, (∀ i, i < w → F (2 ^ i) = G (2 ^ i)) → ∀ z, z < 2 ^ w → F z = G z := by
  intro w
  induction w with
  | zero =>
      intro _ z hz
      interval_cases z
      rw [hF0, hG0]
  | succ w ih =>
      intro hbasis z hz
      by_cases hz2 : z < 2 ^ w
      · exact ih (fun i hi => hbasis i (by omega)) z hz2
      · have hle : 2 ^ w ≤ z := by omega
        have hpow : (2:Nat) ^ (w + 1) = 2 * 2 ^ w := by ring
        have hr : z - 2 ^ w < 2 ^ w := by omega
        have h1 : (z - 2 ^ w) ^^^ 2 ^ w = z - 2 ^ w + 2 ^ w := by
          have h := xor_disjoint w (z - 2 ^ w) 1 hr
          simpa using h
        have hzx : z = (z - 2 ^ w) ^^^ 2 ^ w := by
          rw [h1]
          omega
        rw [hzx, hF, hG]
        rw [ih (fun i hi => hbasis i (by omega)) _ hr, hbasis w (by omega)]

theorem clmul_orbit (K s j w : Nat) (hw : w ≤ 64)
    (hK : crcShift j K = crcShift (s + j) 1) :
    ∀ n, w - 1 + j ≤ n → ∀ a, a < 2 ^ w →
      crcShift n (clmul a K) = crcShift (n + s) a := by
  intro n hn
  have hF : ∀ a b : Nat,
      crcShift n (clmul (a ^^^ b) K) = crcShift n (clmul a K) ^^^ crcShift n (clmul b K) := by
    intro a b
    rw [clmul_xor_left, crcShift_xor]
  have hF0 : crcShift n (clmul 0 K) = 0 := by
    rw [clmul_zero_left, crcShift_zero_val]
  have hbasis : ∀ i, i < w →
      crcShift n (clmul (2 ^ i) K) = crcShift (n + s) (2 ^ i) := by
    intro i hi
    unfold clmul
    rw [clmulBits_pow2 64 i K (by omega)]
    have h1 : crcShift n (2 ^ i * K) = crcShift (n - i) K := by
      conv_lhs => rw [show n = i + (n - i) by omega]
      exact crcShift_absorb i (n - i) K
    have h2 : crcShift (n - i) K = crcShift (s + j + (n - i - j)) 1 := by
      conv_lhs => rw [show n - i = j + (n - i - j) by omega]
      rw [crcShift_add, hK, ← crcShift_add]
    have h3 : crcShift (n + s) (2 ^ i) = crcShift (n + s - i) 1 := by
      conv_lhs => rw [show (2:Nat) ^ i = 2 ^ i * 1 by ring, show n + s = i + (n + s - i) by omega]
      exact crcShift_absorb i (n + s - i) 1
    rw [h1, h2, h3]
    congr 1
    omega
  exact linear_agree (fun a => crcShift n (clmul a K)) (fun a => crcShift (n + s) a)
    hF (fun a b => crcShift_xor (n + s) a b) hF0 (crcShift_zero_val (n + s)) w hbasis

/-- The register reached from a single bit after 64 zero steps,
computed in 64-step stages to keep every kernel reduction shallow. -/
theorem shift64_one : crcShift 64 1 = 3433693342 := by decide

theorem shift128_one : crcShift 128 1 = 2926088593 := by
  rw [show (128:Nat) = 64 + 64 by norm_num, crcShift_add, shift64_one]
  decide

theorem shift448_one : crcShift 448 1 = 496309207 := by
  rw [show (448:Nat) = 64 + 384 by norm_num, crcShift_add, shift64_one]
  rw [show (384:Nat) = 64 + 320 by norm_num, crcShift_add]
  rw [show crcShift 64 3433693342 = 2926088593 from by decide]
  rw [show (320:Nat) = 64 + 256 by norm_num, crcShift_add]
  rw [show crcShift 64 2926088593 = 2166711591 from by decide]
  rw [show (256:Nat) = 64 + 192 by norm_num, crcShift_add]
  rw [show crcShift 64 2166711591 = 4057597354 from by decide]
  rw [show (192:Nat) = 64 + 128 by norm_num, crcShift_add]
  rw [show crcShift 64 4057597354 = 2940506695 from by decide]
  rw [show (128:Nat) = 64 + 64 by norm_num, crcShift_add]
  rw [show crcShift 64 2940506695 = 1035070684 from by decide]
  decide

theorem shift512_one : crcShift 512 1 = 2402626965 := by
  rw [show (512:Nat) = 448 + 64 by norm_num, crcShift_add, shift448_one]
  decide

/-- The folding constant K1 is the image of one stream bit delayed by
512 positions: folding with it jumps a 64-bit half 512 bits forward. -/
theorem K1_orbit : crcShift 2 K1 = crcShift 514 1 := by
  rw [show (514:Nat) = 512 + 2 by norm_num, crcShift_add, shift512_one]
  decide

/-- K2 is one stream bit delayed by 448 positions. -/
theorem K2_orbit : crcShift 2 K2 = crcShift 450 1 := by
  rw [show (450:Nat) = 448 + 2 by norm_num, crcShift_add, shift448_one]
  decide

/-- K3 is one stream bit delayed by 128 positions. -/
theorem K3_orbit : crcShift 2 K3 = crcShift 130 1 := by
  rw [show (130:Nat) = 128 + 2 by norm_num, crcShift_add, shift128_one]
  decide

/-- K4 is one stream bit delayed by 64 positions. -/
theorem K4_orbit : crcShift 1 K4 = crcShift 65 1 := by
  rw [show (65:Nat) = 64 + 1 by norm_num, crcShift_add, shift64_one]
  decide

/-- K5 is one stream bit delayed by 32 positions. -/
theorem K5_orbit : crcShift 1 K5 = crcShift 33 1 := by decide

theorem clmul_K1 (a n : Nat) (ha : a < 2 ^ 64) (hn : 65 ≤ n) :
    crcShift n (clmul a K1) = crcShift (n + 512) a :=
  clmul_orbit K1 512 2 64 (by norm_num) K1_orbit n (by omega) a ha

theorem clmul_K2 (a n : Nat) (ha : a < 2 ^ 64) (hn : 65 ≤ n) :
    crcShift n (clmul a K2) = crcShift (n + 448) a :=
  clmul_orbit K2 448 2 64 (by norm_num) K2_orbit n (by omega) a ha

theorem clmul_K3 (a n : Nat) (ha : a < 2 ^ 64) (hn : 65 ≤ n) :
    crcShift n (clmul a K3) = crcShift (n + 128) a :=
  clmul_orbit K3 128 2 64 (by norm_num) K3_orbit n (by omega) a ha

theorem clmul_K4 (a n : Nat) (ha : a < 2 ^ 64) (hn : 64 ≤ n) :
    crcShift n (clmul a K4) = crcShift (n + 64) a :=
  clmul_orbit K4 64 1 64 (by norm_num) K4_orbit n (by omega) a ha

theorem clmul_K5 (a n : Nat) (ha : a < 2 ^ 32) (hn : 32 ≤ n) :
    crcShift n (clmul a K5) = crcShift (n + 32) a :=
  clmul_orbit K5 32 1 32 (by norm_num) K5_orbit n (by omega) a ha

theorem k1k2_lo : lo64 k1k2 = K1 := by decide

theorem k1k2_hi : hi64 k1k2 = K2 := by decide

theorem k3k4_lo : lo64 k3k4 = K3 := by decide

theorem k3k4_hi : hi64 k3k4 = K4 := by decide

theorem reduce128_lt (a b keys : Nat) (hb : b < 2 ^ 128)
    (hlo : lo64 keys < 2 ^ 34) (hhi : hi64 keys < 2 ^ 34) :
    reduce128 a b keys < 2 ^ 128 := by
  unfold reduce128
  have hl : clmul (lo64 a) (lo64 keys) < 2 ^ 128 := by
    have h := clmul_lt64 (lo64 a) (lo64 keys) 34 (lo64_lt a) hlo
    exact lt_of_lt_of_le h (Nat.pow_le_pow_right (by norm_num) (by norm_num))
  have hh : clmul (hi64 a) (hi64 keys) < 2 ^ 128 := by
    have h := clmul_lt64 (hi64 a) (hi64 keys) 34 (hi64_lt a) hhi
    exact lt_of_lt_of_le h (Nat.pow_le_pow_right (by norm_num) (by norm_num))
  exact Nat.xor_lt_two_pow (Nat.xor_lt_two_pow hb hl) hh

theorem reduce128_k1k2_lt (a b : Nat) (hb : b < 2 ^ 128) : reduce128 a b k1k2 < 2 ^ 128 :=
  reduce128_lt a b k1k2 hb (by rw [k1k2_lo]; decide) (by rw [k1k2_hi]; decide)

theorem reduce128_k3k4_lt (a b : Nat) (hb : b < 2 ^ 128) : reduce128 a b k3k4 < 2 ^ 128 :=
  reduce128_lt a b k3k4 hb (by rw [k3k4_lo]; decide) (by rw [k3k4_hi]; decide)

theorem reduce128_xor (a b t keys : Nat) :
    reduce128 a (b ^^^ t) keys = reduce128 a b keys ^^^ t := by
  unfold reduce128
  simp [Nat.xor_assoc, Nat.xor_comm, xor_left_comm]

/-- Folding a 128-bit register through (K2:K1) moves its contribution
512 bit positions forward in the stream. -/
theorem lane_k1k2 (x n : Nat) (hx : x < 2 ^ 128) (hn : 65 ≤ n) :
    crcShift (n + 512) x
      = crcShift n (clmul (x % 2 ^ 64) K1) ^^^ crcShift n (clmul (x >>> 64) K2) := by
  have h1 : crcShift (n + 512) (x % 2 ^ 64) = crcShift n (clmul (x % 2 ^ 64) K1) :=
    (clmul_K1 (x % 2 ^ 64) n (Nat.mod_lt _ (by positivity)) hn).symm
  have h2 : crcShift (n + 512) (2 ^ 64 * (x >>> 64)) = crcShift n (clmul (x >>> 64) K2) := by
    rw [show n + 512 = 64 + (n + 448) by omega, crcShift_absorb]
    exact (clmul_K2 (x >>> 64) n (shiftRight64_lt x hx) hn).symm
  conv_lhs => rw [xor_split 64 x]
  rw [crcShift_xor, h1, h2]

/-- Folding a 128-bit register through (K4:K3) moves its contribution
128 bit positions forward in the stream. -/
theorem lane_k3k4 (x n : Nat) (hx : x < 2 ^ 128) (hn : 65 ≤ n) :
    crcShift (n + 128) x
      = crcShift n (clmul (x % 2 ^ 64) K3) ^^^ crcShift n (clmul (x >>> 64) K4) := by
  have h1 : crcShift (n + 128) (x % 2 ^ 64) = crcShift n (clmul (x % 2 ^ 64) K3) :=
    (clmul_K3 (x % 2 ^ 64) n (Nat.mod_lt _ (by positivity)) hn).symm
  have h2 : crcShift (n + 128) (2 ^ 64 * (x >>> 64)) = crcShift n (clmul (x >>> 64) K4) := by
    rw [show n + 128 = 64 + (n + 64) by omega, crcShift_absorb]
    exact (clmul_K4 (x >>> 64) n (shiftRight64_lt x hx) (by omega)).symm
  conv_lhs => rw [xor_split 64 x]
  rw [crcShift_xor, h1, h2]

/-- One fold through (K4:K3): the register and the next 128 stream bits
merge into a single register 128 positions later. -/
theorem step_k3k4 (x u n : Nat) (hx : x < 2 ^ 128) (hn : 65 ≤ n) :
    crcShift (n + 128) (x ^^^ 2 ^ 128 * u) = crcShift n (reduce128 x u k3k4) := by
  rw [crcShift_xor, lane_k3k4 x n hx hn, show n + 128 = 128 + n by omega, crcShift_absorb]
  unfold reduce128
  rw [k3k4_lo, k3k4_hi]
  rw [show lo64 x = x % 2 ^ 64 from rfl, hi64_eq x hx]
  rw [crcShift_xor, crcShift_xor]
  simp [Nat.xor_assoc, Nat.xor_comm, xor_left_comm]

/-- One fold-by-1 iteration: the register merges with the next 16-byte
block and the tail rides along untouched. -/
theorem fold1_flat (a d w m : Nat) (ha : a < 2 ^ 128) :
    crcShift (m + 256) (a ^^^ 2 ^ 128 * (d ^^^ 2 ^ 128 * w))
      = crcShift (m + 128) (reduce128 a d k3k4 ^^^ 2 ^ 128 * w) := by
  rw [show m + 256 = (m + 128) + 128 by omega]
  rw [step_k3k4 a _ (m + 128) ha (by omega)]
  rw [reduce128_xor]

set_option maxHeartbeats 2000000 in
/-- One fold-by-4 iteration: each of the four accumulators merges with
its own 16-byte block through (K2:K1), jumping 512 bit positions. -/
theorem fold4_flat (a3 a2 a1 a0 d3 d2 d1 d0 w m : Nat)
    (h3 : a3 < 2 ^ 128) (h2 : a2 < 2 ^ 128) (h1 : a1 < 2 ^ 128) (h0 : a0 < 2 ^ 128) :
    crcShift (m + 1024) (a3 ^^^ 2 ^ 128 * (a2 ^^^ 2 ^ 128 * (a1 ^^^ 2 ^ 128 * (a0 ^^^ 2 ^ 128 *
        (d3 ^^^ 2 ^ 128 * (d2 ^^^ 2 ^ 128 * (d1 ^^^ 2 ^ 128 * (d0 ^^^ 2 ^ 128 * w))))))))
      = crcShift (m + 512) (reduce128 a3 d3 k1k2 ^^^ 2 ^ 128 * (reduce128 a2 d2 k1k2
          ^^^ 2 ^ 128 * (reduce128 a1 d1 k1k2 ^^^ 2 ^ 128 * (reduce128 a0 d0 k1k2
            ^^^ 2 ^ 128 * w)))) := by
  have hh3 : hi64 a3 = a3 >>> 64 := hi64_eq a3 h3
  have hh2 : hi64 a2 = a2 >>> 64 := hi64_eq a2 h2
  have hh1 : hi64 a1 = a1 >>> 64 := hi64_eq a1 h1
  have hh0 : hi64 a0 = a0 >>> 64 := hi64_eq a0 h0
  have q1 : ∀ t, crcShift (m + 128) (2 ^ 128 * t) = crcShift m t := by
    intro t
    rw [show m + 128 = 128 + m by omega]
    exact crcShift_absorb 128 m t
  have q2 : ∀ t, crcShift (m + 256) (2 ^ 128 * t) = crcShift (m + 128) t := by
    intro t
    rw [show m + 256 = 128 + (m + 128) by omega]
    exact crcShift_absorb 128 (m + 128) t
  have q3 : ∀ t, crcShift (m + 384) (2 ^ 128 * t) = crcShift (m + 256) t := by
    intro t
    rw [show m + 384 = 128 + (m + 256) by omega]
    exact crcShift_absorb 128 (m + 256) t
  have q4 : ∀ t, crcShift (m + 512) (2 ^ 128 * t) = crcShift (m + 384) t := by
    intro t
    rw [show m + 512 = 128 + (m + 384) by omega]
    exact crcShift_absorb 128 (m + 384) t
  have q5 : ∀ t, crcShift (m + 640) (2 ^ 128 * t) = crcShift (m + 512) t := by
    intro t
    rw [show m + 640 = 128 + (m + 512) by omega]
    exact crcShift_absorb 128 (m + 512) t
  have q6 : ∀ t, crcShift (m + 768) (2 ^ 128 * t) = crcShift (m + 640) t := by
    intro t
    rw [show m + 768 = 128 + (m + 640) by omega]
    exact crcShift_absorb 128 (m + 640) t
  have q7 : ∀ t, crcShift (m + 896) (2 ^ 128 * t) = crcShift (m + 768) t := by
    intro t
    rw [show m + 896 = 128 + (m + 768) by omega]
    exact crcShift_absorb 128 (m + 768) t
  have q8 : ∀ t, crcShift (m + 1024) (2 ^ 128 * t) = crcShift (m + 896) t := by
    intro t
    rw [show m + 1024 = 128 + (m + 896) by omega]
    exact crcShift_absorb 128 (m + 896) t
  have L3 : crcShift (m + 1024) a3
      = crcShift (m + 512) (clmul (a3 % 2 ^ 64) K1) ^^^ crcShift (m + 512) (clmul (a3 >>> 64) K2) := by
    rw [show m + 1024 = (m + 512) + 512 by omega]
    exact lane_k1k2 a3 (m + 512) h3 (by omega)
  have L2 : crcShift (m + 896) a2
      = crcShift (m + 384) (clmul (a2 % 2 ^ 64) K1) ^^^ crcShift (m + 384) (clmul (a2 >>> 64) K2) := by
    rw [show m + 896 = (m + 384) + 512 by omega]
    exact lane_k1k2 a2 (m + 384) h2 (by omega)
  have L1 : crcShift (m + 768) a1
      = crcShift (m + 256) (clmul (a1 % 2 ^ 64) K1) ^^^ crcShift (m + 256) (clmul (a1 >>> 64) K2) := by
    rw [show m + 768 = (m + 256) + 512 by omega]
    exact lane_k1k2 a1 (m + 256) h1 (by omega)
  have L0 : crcShift (m + 640) a0
      = crcShift (m + 128) (clmul (a0 % 2 ^ 64) K1) ^^^ crcShift (m + 128) (clmul (a0 >>> 64) K2) := by
    rw [show m + 640 = (m + 128) + 512 by omega]
    exact lane_k1k2 a0 (m + 128) h0 (by omega)
  simp only [reduce128, k1k2_lo, k1k2_hi]
  simp only [lo64, hh3, hh2, hh1, hh0]
  simp only [crcShift_xor, q8, q7, q6, q5, q4, q3, q2, q1, L3, L2, L1, L0]
  simp [Nat.xor_assoc, Nat.xor_comm, xor_left_comm]

/-- The accumulator merge after the fold-by-4 loop: three (K4:K3)
folds collapse four registers into one. -/
theorem merge3 (y3 y2 y1 y0 u m : Nat) (hy3 : y3 < 2 ^ 128) (hy2 : y2 < 2 ^ 128)
    (hy1 : y1 < 2 ^ 128) (hm : 65 ≤ m) :
    crcShift (m + 384) (y3 ^^^ 2 ^ 128 * (y2 ^^^ 2 ^ 128 * (y1 ^^^ 2 ^ 128 * (y0 ^^^ 2 ^ 128 * u))))
      = crcShift m (reduce128 (reduce128 (reduce128 y3 y2 k3k4) y1 k3k4) y0 k3k4
          ^^^ 2 ^ 128 * u) := by
  have s1 : crcShift (m + 384)
        (y3 ^^^ 2 ^ 128 * (y2 ^^^ 2 ^ 128 * (y1 ^^^ 2 ^ 128 * (y0 ^^^ 2 ^ 128 * u))))
      = crcShift (m + 256)
        (reduce128 y3 y2 k3k4 ^^^ 2 ^ 128 * (y1 ^^^ 2 ^ 128 * (y0 ^^^ 2 ^ 128 * u))) := by
    rw [show m + 384 = (m + 256) + 128 by omega]
    rw [step_k3k4 y3 _ (m + 256) hy3 (by omega)]
    rw [reduce128_xor]
  have s2 : crcShift (m + 256)
        (reduce128 y3 y2 k3k4 ^^^ 2 ^ 128 * (y1 ^^^ 2 ^ 128 * (y0 ^^^ 2 ^ 128 * u)))
      = crcShift (m + 128)
        (reduce128 (reduce128 y3 y2 k3k4) y1 k3k4 ^^^ 2 ^ 128 * (y0 ^^^ 2 ^ 128 * u)) := by
    rw [show m + 256 = (m + 128) + 128 by omega]
    rw [step_k3k4 _ _ (m + 128) (reduce128_k3k4_lt y3 y2 hy2) (by omega)]
    rw [reduce128_xor]
  have s3 : crcShift (m + 128)
        (reduce128 (reduce128 y3 y2 k3k4) y1 k3k4 ^^^ 2 ^ 128 * (y0 ^^^ 2 ^ 128 * u))
      = crcShift m
        (reduce128 (reduce128 (reduce128 y3 y2 k3k4) y1 k3k4) y0 k3k4 ^^^ 2 ^ 128 * u) := by
    rw [show m + 128 = m + 128 from rfl]
    rw [step_k3k4 _ _ m (reduce128_k3k4_lt _ y1 hy1) hm]
    rw [reduce128_xor]
  rw [s1, s2, s3]

/-- Invariant of the fold-by-1 loop of fn calculate. -/
theorem fold1_sem (fuel : Nat) : ∀ (x : Nat) (rest : List Nat) (y : Nat) (res : List Nat),
    IsBytes rest → x < 2 ^ 128 → fold1 fuel x rest = (y, res) →
    y < 2 ^ 128 ∧ IsBytes res ∧ res.length ≤ rest.length ∧
      (rest.length ≤ fuel → res.length < 16) ∧
      crcShift (128 + 8 * rest.length) (x ^^^ 2 ^ 128 * loadLE rest)
        = crcShift (128 + 8 * res.length) (y ^^^ 2 ^ 128 * loadLE res) := by
  induction fuel with
  | zero =>
      intro x rest y res hb hx heq
      simp only [fold1] at heq
      rw [Prod.mk.injEq] at heq
      obtain ⟨rfl, rfl⟩ := heq
      exact ⟨hx, hb, le_refl _, by omega, rfl⟩
  | succ fuel ih =>
      intro x rest y res hb hx heq
      simp only [fold1] at heq
      by_cases hlen : 16 ≤ rest.length
      · rw [if_pos hlen] at heq
        have hD : loadLE (rest.take 16) < 2 ^ 128 := loadLE_take_lt rest hb hlen
        have hx2 : reduce128 x (loadLE (rest.take 16)) k3k4 < 2 ^ 128 :=
          reduce128_k3k4_lt x _ hD
        obtain ⟨hy, hbres, hlle, hfc, hinv⟩ :=
          ih _ _ _ _ (isBytes_drop _ _ hb) hx2 heq
        have hdl : (rest.drop 16).length = rest.length - 16 := List.length_drop ..
        rw [hdl] at hlle hfc hinv
        refine ⟨hy, hbres, by omega, fun hle => hfc (by omega), ?_⟩
        have hstep : crcShift (128 + 8 * rest.length) (x ^^^ 2 ^ 128 * loadLE rest)
            = crcShift (128 + 8 * (rest.length - 16))
              (reduce128 x (loadLE (rest.take 16)) k3k4 ^^^ 2 ^ 128 * loadLE (rest.drop 16)) := by
          rw [loadLE_take_drop rest hb hlen]
          rw [show 128 + 8 * rest.length = (8 * (rest.length - 16)) + 256 by omega]
          rw [show 128 + 8 * (rest.length - 16) = (8 * (rest.length - 16)) + 128 by omega]
          exact fold1_flat x (loadLE (rest.take 16)) (loadLE (rest.drop 16))
            (8 * (rest.length - 16)) hx
        rw [hstep, hinv]
      · rw [if_neg hlen] at heq
        rw [Prod.mk.injEq] at heq
        obtain ⟨rfl, rfl⟩ := heq
        exact ⟨hx, hb, le_refl _, by omega, rfl⟩

/-- Invariant of the fold-by-4 loop of fn calculate. -/
theorem fold4_sem (fuel : Nat) : ∀ (x3 x2 x1 x0 : Nat) (rest : List Nat)
    (y3 y2 y1 y0 : Nat) (res : List Nat),
    IsBytes rest → x3 < 2 ^ 128 → x2 < 2 ^ 128 → x1 < 2 ^ 128 → x0 < 2 ^ 128 →
    fold4 fuel x3 x2 x1 x0 rest = (y3, y2, y1, y0, res) →
    (y3 < 2 ^ 128 ∧ y2 < 2 ^ 128 ∧ y1 < 2 ^ 128 ∧ y0 < 2 ^ 128) ∧ IsBytes res ∧
      res.length ≤ rest.length ∧ (rest.length ≤ fuel → res.length < 64) ∧
      crcShift (512 + 8 * rest.length)
          (x3 ^^^ 2 ^ 128 * (x2 ^^^ 2 ^ 128 * (x1 ^^^ 2 ^ 128 * (x0 ^^^ 2 ^ 128 * loadLE rest))))
        = crcShift (512 + 8 * res.length)
          (y3 ^^^ 2 ^ 128 * (y2 ^^^ 2 ^ 128 * (y1 ^^^ 2 ^ 128 * (y0 ^^^ 2 ^ 128 * loadLE res)))) := by
  induction fuel with
  | zero =>
      intro x3 x2 x1 x0 rest y3 y2 y1 y0 res hb h3 h2 h1 h0 heq
      simp only [fold4] at heq
      simp only [Prod.mk.injEq] at heq
      obtain ⟨rfl, rfl, rfl, rfl, rfl⟩ := heq
      exact ⟨⟨h3, h2, h1, h0⟩, hb, le_refl _, by omega, rfl⟩
  | succ fuel ih =>
      intro x3 x2 x1 x0 rest y3 y2 y1 y0 res hb h3 h2 h1 h0 heq
      simp only [fold4] at heq
      by_cases hlen : 64 ≤ rest.length
      · rw [if_pos hlen] at heq
        have hD3 : loadLE (rest.take 16) < 2 ^ 128 := loadLE_take_lt rest hb (by omega)
        have hD2 : loadLE ((rest.drop 16).take 16) < 2 ^ 128 :=
          loadLE_take_lt (rest.drop 16) (isBytes_drop _ _ hb) (by rw [List.length_drop]; omega)
        have hD1 : loadLE ((rest.drop 32).take 16) < 2 ^ 128 :=
          loadLE_take_lt (rest.drop 32) (isBytes_drop _ _ hb) (by rw [List.length_drop]; omega)
        have hD0 : loadLE ((rest.drop 48).take 16) < 2 ^ 128 :=
          loadLE_take_lt (rest.drop 48) (isBytes_drop _ _ hb) (by rw [List.length_drop]; omega)
        obtain ⟨⟨hy3, hy2, hy1, hy0⟩, hbres, hlle, hfc, hinv⟩ :=
          ih _ _ _ _ _ _ _ _ _ _ (isBytes_drop _ _ hb)
            (reduce128_k1k2_lt x3 _ hD3) (reduce128_k1k2_lt x2 _ hD2)
            (reduce128_k1k2_lt x1 _ hD1) (reduce128_k1k2_lt x0 _ hD0) heq
        have hdl : (rest.drop 64).length = rest.length - 64 := List.length_drop ..
        rw [hdl] at hlle hfc hinv
        refine ⟨⟨hy3, hy2, hy1, hy0⟩, hbres, by omega, fun hle => hfc (by omega), ?_⟩
        have hld : loadLE rest = loadLE (rest.take 16)
            ^^^ 2 ^ 128 * (loadLE ((rest.drop 16).take 16)
              ^^^ 2 ^ 128 * (loadLE ((rest.drop 32).take 16)
                ^^^ 2 ^ 128 * (loadLE ((rest.drop 48).take 16)
                  ^^^ 2 ^ 128 * loadLE (rest.drop 64)))) := by
          rw [loadLE_take_drop rest hb (by omega)]
          rw [loadLE_take_drop (rest.drop 16) (isBytes_drop _ _ hb)
            (by rw [List.length_drop]; omega)]
          rw [List.drop_drop, show (16:Nat) + 16 = 32 by norm_num]
          rw [loadLE_take_drop (rest.drop 32) (isBytes_drop _ _ hb)
            (by rw [List.length_drop]; omega)]
          rw [List.drop_drop, show (16:Nat) + 32 = 48 by norm_num]
          rw [loadLE_take_drop (rest.drop 48) (isBytes_drop _ _ hb)
            (by rw [List.length_drop]; omega)]
          rw [List.drop_drop, show (16:Nat) + 48 = 64 by norm_num]
        have hstep : crcShift (512 + 8 * rest.length)
            (x3 ^^^ 2 ^ 128 * (x2 ^^^ 2 ^ 128 * (x1 ^^^ 2 ^ 128 * (x0 ^^^ 2 ^ 128 * loadLE rest))))
            = crcShift (512 + 8 * (rest.length - 64))
              (reduce128 x3 (loadLE (rest.take 16)) k1k2
                ^^^ 2 ^ 128 * (reduce128 x2 (loadLE ((rest.drop 16).take 16)) k1k2
                  ^^^ 2 ^ 128 * (reduce128 x1 (loadLE ((rest.drop 32).take 16)) k1k2
                    ^^^ 2 ^ 128 * (reduce128 x0 (loadLE ((rest.drop 48).take 16)) k1k2
                      ^^^ 2 ^ 128 * loadLE (rest.drop 64))))) := by
          rw [hld]
          rw [show 512 + 8 * rest.length = (8 * (rest.length - 64)) + 1024 by omega]
          rw [show 512 + 8 * (rest.length - 64) = (8 * (rest.length - 64)) + 512 by omega]
          exact fold4_flat x3 x2 x1 x0 _ _ _ _ _ (8 * (rest.length - 64)) h3 h2 h1 h0
        rw [hstep, hinv]
      · rw [if_neg hlen] at heq
        simp only [Prod.mk.injEq] at heq
        obtain ⟨rfl, rfl, rfl, rfl, rfl⟩ := heq
        exact ⟨⟨h3, h2, h1, h0⟩, hb, le_refl _, by omega, rfl⟩

/-- The Barrett reduction of the final 64-bit remainder computes
exactly the 32 CRC shifts, checked on each basis bit and extended by
GF(2) linearity of every stage. -/
theorem barrett_exact (z : Nat) (hz : z < 2 ^ 64) :
    ((z ^^^ clmul (clmul (z % 2 ^ 32) U_prime % 2 ^ 32) P_x) >>> 32) % 2 ^ 32
      = crcShift 32 z := by
  have hmix : ∀ a b c d : Nat, (a ^^^ b) ^^^ (c ^^^ d) = (a ^^^ c) ^^^ (b ^^^ d) := by
    intro a b c d
    simp [Nat.xor_assoc, Nat.xor_comm, xor_left_comm]
  have hF : ∀ a b : Nat,
      (((a ^^^ b) ^^^ clmul (clmul ((a ^^^ b) % 2 ^ 32) U_prime % 2 ^ 32) P_x) >>> 32) % 2 ^ 32
        = ((a ^^^ clmul (clmul (a % 2 ^ 32) U_prime % 2 ^ 32) P_x) >>> 32) % 2 ^ 32
          ^^^ ((b ^^^ clmul (clmul (b % 2 ^ 32) U_prime % 2 ^ 32) P_x) >>> 32) % 2 ^ 32 := by
    intro a b
    rw [mod_two_pow_xor a b 32, clmul_xor_left, mod_two_pow_xor, clmul_xor_left]
    rw [hmix]
    rw [shiftRight_distrib_xor, mod_two_pow_xor]
  have hF0 : ((0 ^^^ clmul (clmul (0 % 2 ^ 32) U_prime % 2 ^ 32) P_x) >>> 32) % 2 ^ 32 = 0 := by
    decide
  have hbasis0 : ∀ i ∈ List.range 64,
      ((2 ^ i ^^^ clmul (clmul (2 ^ i % 2 ^ 32) U_prime % 2 ^ 32) P_x) >>> 32) % 2 ^ 32
        = crcShift 32 (2 ^ i) := by decide
  exact linear_agree
    (fun t => ((t ^^^ clmul (clmul (t % 2 ^ 32) U_prime % 2 ^ 32) P_x) >>> 32) % 2 ^ 32)
    (fun t => crcShift 32 t) hF (fun a b => crcShift_xor 32 a b) hF0 (crcShift_zero_val 32)
    64 (fun i hi => hbasis0 i (List.mem_range.mpr hi)) z hz

/-- The 128-to-64-to-32-bit reduction chain of fn calculate is exactly
the 128 zero shifts of the final register. -/
theorem reduce_final (x y z : Nat) (hx : x < 2 ^ 128)
    (hy : y = clmul (lo64 x) K4 ^^^ x >>> 64)
    (hz : z = clmul (y % 2 ^ 32) K5 ^^^ y >>> 32) :
    ((z ^^^ clmul (clmul (z % 2 ^ 32) U_prime % 2 ^ 32) P_x) >>> 32) % 2 ^ 32
      = crcShift 128 x := by
  have hyb : y < 2 ^ 96 := by
    rw [hy]
    apply Nat.xor_lt_two_pow
    · have h := clmul_lt64 (lo64 x) K4 32 (lo64_lt x) (by decide)
      exact lt_of_lt_of_le h (Nat.pow_le_pow_right (by norm_num) (by norm_num))
    · exact lt_of_lt_of_le (shiftRight64_lt x hx)
        (Nat.pow_le_pow_right (by norm_num) (by norm_num))
  have hzb : z < 2 ^ 64 := by
    rw [hz]
    apply Nat.xor_lt_two_pow
    · have h := clmul_lt32 (y % 2 ^ 32) K5 33 (Nat.mod_lt _ (by positivity)) (by decide)
      rw [show (31:Nat) + 33 = 64 by norm_num] at h
      exact h
    · rw [Nat.shiftRight_eq_div_pow]
      exact Nat.div_lt_of_lt_mul
        (by rw [show (2:Nat) ^ 32 * 2 ^ 64 = 2 ^ 96 by norm_num]; exact hyb)
  have hzy : crcShift 32 z = crcShift 64 y := by
    rw [hz, crcShift_xor]
    rw [clmul_K5 (y % 2 ^ 32) 32 (Nat.mod_lt _ (by positivity)) (le_refl 32)]
    have ha : crcShift 64 (2 ^ 32 * (y >>> 32)) = crcShift 32 (y >>> 32) := by
      rw [show (64:Nat) = 32 + 32 by norm_num]
      exact crcShift_absorb 32 32 _
    conv_rhs => rw [xor_split 32 y]
    rw [crcShift_xor, ha]
  have hyx : crcShift 64 y = crcShift 128 x := by
    rw [hy, crcShift_xor]
    rw [show lo64 x = x % 2 ^ 64 from rfl]
    rw [clmul_K4 (x % 2 ^ 64) 64 (Nat.mod_lt _ (by positivity)) (le_refl 64)]
    have ha : crcShift 128 (2 ^ 64 * (x >>> 64)) = crcShift 64 (x >>> 64) := by
      rw [show (128:Nat) = 64 + 64 by norm_num]
      exact crcShift_absorb 64 64 _
    conv_rhs => rw [xor_split 64 x]
    rw [crcShift_xor, ha]
  rw [barrett_exact z hzb, hzy, hyx]

/-- The SIMD pipeline of fn calculate agrees with the portable CRC on
every long-enough byte input and every 32-bit initial value. -/
theorem calculate_eq (crc : Nat) (data : List Nat) (hcrc : crc < 2 ^ 32)
    (hdata : IsBytes data) :
    calculate crc data crc32 = crc32 crc data := by
  by_cases hsmall : data.length < 128
  · unfold calculate
    rw [if_pos hsmall]
  · have h128 : 128 ≤ data.length := by omega
    have hc0 : crc ^^^ 0xFFFFFFFF < 2 ^ 32 := Nat.xor_lt_two_pow hcrc (by norm_num)
    have hL3 : loadLE (data.take 16) < 2 ^ 128 := loadLE_take_lt data hdata (by omega)
    have hL2 : loadLE ((data.drop 16).take 16) < 2 ^ 128 :=
      loadLE_take_lt (data.drop 16) (isBytes_drop _ _ hdata) (by rw [List.length_drop]; omega)
    have hL1 : loadLE ((data.drop 32).take 16) < 2 ^ 128 :=
      loadLE_take_lt (data.drop 32) (isBytes_drop _ _ hdata) (by rw [List.length_drop]; omega)
    have hL0 : loadLE ((data.drop 48).take 16) < 2 ^ 128 :=
      loadLE_take_lt (data.drop 48) (isBytes_drop _ _ hdata) (by rw [List.length_drop]; omega)
    have hX3 : loadLE (data.take 16) ^^^ (crc ^^^ 0xFFFFFFFF) < 2 ^ 128 :=
      Nat.xor_lt_two_pow hL3
        (lt_of_lt_of_le hc0 (Nat.pow_le_pow_right (by norm_num) (by norm_num)))
    have hinit : crcRaw (crc ^^^ 0xFFFFFFFF) data
        = crcShift (512 + 8 * (data.drop 64).length)
          ((loadLE (data.take 16) ^^^ (crc ^^^ 0xFFFFFFFF))
            ^^^ 2 ^ 128 * (loadLE ((data.drop 16).take 16)
              ^^^ 2 ^ 128 * (loadLE ((data.drop 32).take 16)
                ^^^ 2 ^ 128 * (loadLE ((data.drop 48).take 16)
                  ^^^ 2 ^ 128 * loadLE (data.drop 64))))) := by
      rw [crcRaw_loadLE data hdata]
      rw [show 8 * data.length = 512 + 8 * (data.drop 64).length from by
        rw [List.length_drop]; omega]
      rw [loadLE_take_drop data hdata (by omega)]
      rw [loadLE_take_drop (data.drop 16) (isBytes_drop _ _ hdata)
        (by rw [List.length_drop]; omega)]
      rw [List.drop_drop, show (16:Nat) + 16 = 32 by norm_num]
      rw [loadLE_take_drop (data.drop 32) (isBytes_drop _ _ hdata)
        (by rw [List.length_drop]; omega)]
      rw [List.drop_drop, show (16:Nat) + 32 = 48 by norm_num]
      rw [loadLE_take_drop (data.drop 48) (isBytes_drop _ _ hdata)
        (by rw [List.length_drop]; omega)]
      rw [List.drop_drop, show (16:Nat) + 48 = 64 by norm_num]
      rw [← Nat.xor_assoc, Nat.xor_comm (crc ^^^ 0xFFFFFFFF) (loadLE (data.take 16))]
    rcases hf4 : fold4 (data.drop 64).length
        (loadLE (data.take 16) ^^^ (crc ^^^ 0xFFFFFFFF))
        (loadLE ((data.drop 16).take 16)) (loadLE ((data.drop 32).take 16))
        (loadLE ((data.drop 48).take 16)) (data.drop 64) with ⟨y3, y2, y1, y0, res1⟩
    obtain ⟨⟨hy3, hy2, hy1, hy0⟩, hbres1, hlle1, hfc1, hinv1⟩ :=
      fold4_sem (data.drop 64).length _ _ _ _ (data.drop 64) y3 y2 y1 y0 res1
        (isBytes_drop _ _ hdata) hX3 hL2 hL1 hL0 hf4
    rcases hf1 : fold1 res1.length
        (reduce128 (reduce128 (reduce128 y3 y2 k3k4) y1 k3k4) y0 k3k4) res1 with ⟨xf, res2⟩
    have hmw : reduce128 (reduce128 (reduce128 y3 y2 k3k4) y1 k3k4) y0 k3k4 < 2 ^ 128 :=
      reduce128_k3k4_lt _ y0 hy0
    obtain ⟨hxf, hbres2, hlle2, hfc2, hinv2⟩ :=
      fold1_sem res1.length _ res1 xf res2 hbres1 hmw hf1
    have hmerge : crcShift (512 + 8 * res1.length)
        (y3 ^^^ 2 ^ 128 * (y2 ^^^ 2 ^ 128 * (y1 ^^^ 2 ^ 128 * (y0 ^^^ 2 ^ 128 * loadLE res1))))
        = crcShift (128 + 8 * res1.length)
          (reduce128 (reduce128 (reduce128 y3 y2 k3k4) y1 k3k4) y0 k3k4
            ^^^ 2 ^ 128 * loadLE res1) := by
      rw [show 512 + 8 * res1.length = (128 + 8 * res1.length) + 384 by omega]
      exact merge3 y3 y2 y1 y0 (loadLE res1) (128 + 8 * res1.length) hy3 hy2 hy1 (by omega)
    have htotal : crcRaw (crc ^^^ 0xFFFFFFFF) data
        = crcShift (128 + 8 * res2.length) (xf ^^^ 2 ^ 128 * loadLE res2) := by
      rw [hinit, hinv1, hmerge, hinv2]
    have hred := reduce_final xf
      (clmul (lo64 xf) K4 ^^^ xf >>> 64)
      (clmul ((clmul (lo64 xf) K4 ^^^ xf >>> 64) % 2 ^ 32) K5
        ^^^ (clmul (lo64 xf) K4 ^^^ xf >>> 64) >>> 32)
      hxf rfl rfl
    simp only [calculate]
    rw [if_neg hsmall]
    rw [hf4]
    simp only [hf1]
    rw [hred]
    by_cases hres0 : 0 < res2.length
    · rw [if_pos hres0]
      unfold crc32
      rw [Nat.xor_assoc, Nat.xor_self, Nat.xor_zero]
      rw [crcRaw_loadLE res2 hbres2, htotal]
      rw [crcShift_add 128 (8 * res2.length), crcShift_xor 128, crcShift_pow_mul 128]
    · rw [if_neg hres0]
      have hnil : res2 = [] := List.length_eq_zero.mp (by omega)
      subst hnil
      unfold crc32
      rw [htotal]
      simp [loadLE]

/-- C2: for every initial 32-bit CRC value and every byte slice, the
SIMD path (Hardware calculate with hardware support, the
carryless-multiply folding implementation of fn calculate) returns the
identical value as the portable CRC-32 applied to the same initial
value and bytes, whichever way the capability probe went; and inputs
shorter than 128 bytes are routed to the caller-supplied fallback
unchanged. -/
theorem C2_simd_fallback (h : Hardware) (crc : Nat) (data : List Nat)
    (fallback : Nat → List Nat → Nat) (hcrc : crc < 2 ^ 32) (hdata : IsBytes data) :
    Hardware.calculate h crc data crc32 = crc32 crc data ∧
    (data.length < 128 → calculate crc data fallback = fallback crc data) := by
  constructor
  · unfold Hardware.calculate
    by_cases hh : h = true
    · rw [if_pos hh]
      exact calculate_eq crc data hcrc hdata
    · rw [if_neg hh]
  · intro hl
    unfold calculate
    rw [if_pos hl]

/-- Witness for C2 on a 128-byte input, which exercises the folding
path end to end: one fold-by-4 iteration, the merge, and the Barrett
reduction with an empty residue. -/
theorem C2_witness :
    ((0:Nat) < 2 ^ 32 ∧ IsBytes (List.replicate 128 7)) ∧
    (Hardware.calculate true 0 (List.replicate 128 7) crc32 = crc32 0 (List.replicate 128 7) ∧
      ((List.replicate 128 7).length < 128 →
        calculate 0 (List.replicate 128 7) crc32 = crc32 0 (List.replicate 128 7))) :=
  ⟨⟨by decide, by decide⟩,
    C2_simd_fallback true 0 (List.replicate 128 7) crc32 (by decide) (by decide)⟩

end Flate2
